import Mathlib

/-!
# FenceTime (libs/ui/FenceTime.cpp): sequential model and properties

The development embeds `FenceTime`, `FenceTime::Snapshot` and the operations of
`FenceTime.cpp` as pure functions over an explicit object state.

* A `sp<Fence>` is an `Option Fence`: `none` is the null reference, `some f` a
  reference to the Fence object `f`.
* `Fence::getSignalTime()` is a system call whose answer changes over time; a
  call of `FenceTime::getSignalTime` therefore receives the answers the Fence
  objects would give at that moment (`fenceAnswer : Fence → nsecs_t`) and
  reports which Fences it polled.
* `ui/Fence.h` and `ui/FenceTime.h` are not among the sources.  What
  `FenceTime.cpp` takes from them (the two sentinels, `Fence::isValidTimestamp`,
  `Fence::isValid`, `Fence::NO_FENCE`, the default member values of a
  `Snapshot`) is collected in the record `Env` and every definition is
  parameterised by it; theorems hold for every `Env`.
* For the wire format, the width of `size_t`, `sizeof(state)` and the
  `Flattenable` methods of `Fence` are collected in the record `Wire`.
  `flatten` and `unflatten` act on cursors that stand for their four reference
  parameters; a call that would dereference a null `fence` has no result
  (`none`).
* A `weak_ptr<FenceTime>` of a `FenceTimeline` is the address of a FenceTime
  object; the objects that still have an owner are given by a `Heap`.
* Locking is made visible by the sequence of `Event`s (mutex acquired, mutex
  released, Fence polled) that a call produces along the branches it takes.
* Concurrent callers of `getSignalTime` are a `Race`: each caller advances
  through the four places where the method touches the shared members, and a
  schedule says which caller moves next.
-/

namespace android

/-- The type `nsecs_t`: a signed nanosecond count. `FenceTime.cpp` only copies and
compares these values, so no wrap-around arithmetic is involved. -/
abbrev nsecs_t := Int

/-- A Fence object, identified by its address. -/
structure Fence where
  addr : Nat
deriving DecidableEq, Repr

/-- The enum `FenceTime::State`. -/
inductive FenceTime.State
  | VALID
  | INVALID
deriving DecidableEq, Repr

/-- The enum `FenceTime::Snapshot::State`. The three enumerators are the ones the
`switch` statements of `FenceTime.cpp` name; `unrecognised` stands for any other
value of the underlying integer type, which the code reaches by falling out of
the `switch`. -/
inductive FenceTime.Snapshot.State
  | EMPTY
  | FENCE
  | SIGNAL_TIME
  | unrecognised (raw : Nat)
deriving DecidableEq, Repr

/-- The struct `FenceTime::Snapshot`: the tag and both payload members. -/
structure FenceTime.Snapshot where
  state : FenceTime.Snapshot.State
  fence : Option Fence
  signalTime : nsecs_t
deriving DecidableEq, Repr

/-- Declarations that `FenceTime.cpp` uses from headers outside the sources. -/
structure Env where
  /-- The constant `Fence::SIGNAL_TIME_PENDING`. -/
  SIGNAL_TIME_PENDING : nsecs_t
  /-- The constant `Fence::SIGNAL_TIME_INVALID`. -/
  SIGNAL_TIME_INVALID : nsecs_t
  /-- The function `Fence::isValidTimestamp`. -/
  isValidTimestamp : nsecs_t → Bool
  /-- The method `Fence::isValid` of each Fence object. -/
  isValid : Fence → Bool
  /-- The reference `Fence::NO_FENCE`. -/
  NO_FENCE : Option Fence
  /-- A `Snapshot` whose members hold their default member initialisers. -/
  snapshotDefault : FenceTime.Snapshot

/-- The object state of a `FenceTime`: `mState`, `mFence` and the atomic
`mSignalTime`. -/
structure FenceTime where
  mState : FenceTime.State
  mFence : Option Fence
  mSignalTime : nsecs_t
deriving DecidableEq, Repr

/-- Messages written with `ALOGE`. -/
inductive LogE
  | unexpectedFence
  | signalTimeMismatch (old new : nsecs_t)
deriving DecidableEq, Repr

namespace FenceTime

/-- Constructor `Snapshot::Snapshot(const sp<Fence>& srcFence)`. -/
def Snapshot.ofFence (env : Env) (srcFence : Option Fence) : Snapshot :=
  { env.snapshotDefault with state := Snapshot.State.FENCE, fence := srcFence }

/-- Constructor `Snapshot::Snapshot(nsecs_t srcSignalTime)`. -/
def Snapshot.ofSignalTime (env : Env) (srcSignalTime : nsecs_t) : Snapshot :=
  { env.snapshotDefault with state := Snapshot.State.SIGNAL_TIME, signalTime := srcSignalTime }

/-- The test `(fence.get() != nullptr) && fence->isValid()` of both Fence
constructors. -/
def fenceUsable (env : Env) (fence : Option Fence) : Bool :=
  match fence with
  | none => false
  | some f => env.isValid f

/-- Constructor `FenceTime::FenceTime(const sp<Fence>& fence)`. -/
def ofFence (env : Env) (fence : Option Fence) : FenceTime :=
  let mState := if fenceUsable env fence then State.VALID else State.INVALID
  { mState := mState
    mFence := fence
    mSignalTime :=
      if mState = State.INVALID then env.SIGNAL_TIME_INVALID else env.SIGNAL_TIME_PENDING }

/-- Constructor `FenceTime::FenceTime(sp<Fence>&& fence)`; the new object is
initialised exactly as by the copying constructor. -/
def ofFenceMove (env : Env) (fence : Option Fence) : FenceTime :=
  let mState := if fenceUsable env fence then State.VALID else State.INVALID
  { mState := mState
    mFence := fence
    mSignalTime :=
      if mState = State.INVALID then env.SIGNAL_TIME_INVALID else env.SIGNAL_TIME_PENDING }

/-- Constructor `FenceTime::FenceTime(nsecs_t signalTime)`. -/
def ofSignalTime (env : Env) (signalTime : nsecs_t) : FenceTime :=
  { mState := if env.isValidTimestamp signalTime then State.VALID else State.INVALID
    mFence := none
    mSignalTime :=
      if signalTime = env.SIGNAL_TIME_PENDING then env.SIGNAL_TIME_INVALID else signalTime }

/-- The shared instance `FenceTime::NO_FENCE`. -/
def NO_FENCE (env : Env) : FenceTime :=
  ofFence env env.NO_FENCE

/-- Method `FenceTime::applyTrustedSnapshot`: the new object state and what was
logged. -/
def applyTrustedSnapshot (env : Env) (self : FenceTime) (src : Snapshot) :
    FenceTime × List LogE :=
  if src.state ≠ Snapshot.State.SIGNAL_TIME then
    (self, [LogE.unexpectedFence])
  else if src.state = Snapshot.State.EMPTY then
    (self, [])
  else
    let signalTime := self.mSignalTime
    if signalTime ≠ env.SIGNAL_TIME_PENDING then
      (self,
        if signalTime ≠ src.signalTime then [LogE.signalTimeMismatch signalTime src.signalTime]
        else [])
    else
      ({ self with mFence := none, mSignalTime := src.signalTime }, [])

/-- Method `FenceTime::isValid`. -/
def isValid (self : FenceTime) : Bool :=
  self.mState ≠ State.INVALID

/-- Outcome of one `getSignalTime` call: the value returned, the object state
afterwards, and the Fences whose `getSignalTime` was invoked, in order. -/
structure SignalTimeCall where
  ret : nsecs_t
  self : FenceTime
  polled : List Fence
deriving DecidableEq, Repr

/-- Method `FenceTime::getSignalTime`, run without interference from other
threads. `fenceAnswer f` is what `f->getSignalTime()` answers at this moment. -/
def getSignalTime (env : Env) (fenceAnswer : Fence → nsecs_t) (self : FenceTime) :
    SignalTimeCall :=
  let signalTime := self.mSignalTime
  if signalTime ≠ env.SIGNAL_TIME_PENDING then
    { ret := signalTime, self := self, polled := [] }
  else
    match self.mFence with
    | none => { ret := self.mSignalTime, self := self, polled := [] }
    | some fence =>
      let signalTime := fenceAnswer fence
      if signalTime ≠ env.SIGNAL_TIME_PENDING then
        { ret := signalTime
          self := { self with mFence := none, mSignalTime := signalTime }
          polled := [fence] }
      else
        { ret := signalTime, self := self, polled := [fence] }

/-- Method `FenceTime::getCachedSignalTime`. -/
def getCachedSignalTime (self : FenceTime) : nsecs_t :=
  self.mSignalTime

/-- Method `FenceTime::getSnapshot`. -/
def getSnapshot (env : Env) (self : FenceTime) : Snapshot :=
  let signalTime := self.mSignalTime
  if signalTime ≠ env.SIGNAL_TIME_PENDING then
    Snapshot.ofSignalTime env signalTime
  else
    let signalTime := self.mSignalTime
    if signalTime ≠ env.SIGNAL_TIME_PENDING then
      Snapshot.ofSignalTime env signalTime
    else
      Snapshot.ofFence env self.mFence

/-- The three ways of constructing a `FenceTime`. -/
inductive Ctor
  | copyFence (fence : Option Fence)
  | moveFence (fence : Option Fence)
  | time (signalTime : nsecs_t)

/-- Run a constructor. -/
def Ctor.build (env : Env) : Ctor → FenceTime
  | Ctor.copyFence fence => ofFence env fence
  | Ctor.moveFence fence => ofFenceMove env fence
  | Ctor.time signalTime => ofSignalTime env signalTime

/-- The Fence reference a constructor was handed (null for the timestamp
constructor). -/
def Ctor.fence : Ctor → Option Fence
  | Ctor.copyFence fence => fence
  | Ctor.moveFence fence => fence
  | Ctor.time _ => none

/-- One call on a `FenceTime` object, with the inputs the call depends on. -/
inductive Op
  | getSignalTime (fenceAnswer : Fence → nsecs_t)
  | getCachedSignalTime
  | getSnapshot
  | applyTrustedSnapshot (src : Snapshot)

/-- What a caller and the environment observe of one call. -/
structure Obs where
  /-- value returned by `getSignalTime` or `getCachedSignalTime` -/
  signalTime : Option nsecs_t
  /-- value returned by `getSnapshot` -/
  snapshot : Option Snapshot
  /-- Fences whose `getSignalTime` was invoked -/
  polled : List Fence
  /-- messages logged -/
  logged : List LogE
deriving DecidableEq, Repr

/-- Perform one call. -/
def Op.exec (env : Env) (op : Op) (self : FenceTime) : FenceTime × Obs :=
  match op with
  | Op.getSignalTime fenceAnswer =>
    let r := FenceTime.getSignalTime env fenceAnswer self
    (r.self, { signalTime := some r.ret, snapshot := none, polled := r.polled, logged := [] })
  | Op.getCachedSignalTime =>
    (self,
      { signalTime := some (FenceTime.getCachedSignalTime self), snapshot := none,
        polled := [], logged := [] })
  | Op.getSnapshot =>
    (self,
      { signalTime := none, snapshot := some (FenceTime.getSnapshot env self),
        polled := [], logged := [] })
  | Op.applyTrustedSnapshot src =>
    let r := FenceTime.applyTrustedSnapshot env self src
    (r.1, { signalTime := none, snapshot := none, polled := [], logged := r.2 })

/-- Perform a sequence of calls, one after the other, collecting the
observations. -/
def run (env : Env) : List Op → FenceTime → FenceTime × List Obs
  | [], self => (self, [])
  | op :: ops, self =>
    let r := Op.exec env op self
    let rest := run env ops r.1
    (rest.1, r.2 :: rest.2)

end FenceTime

/-- A concrete environment used to evaluate the definitions: the sentinels are the
largest 64-bit signed value and `-1`, valid timestamps are the non-negative
values below the PENDING sentinel, and the Fence at address `0` is the invalid
no-fence object. -/
def Env.reference : Env where
  SIGNAL_TIME_PENDING := 9223372036854775807
  SIGNAL_TIME_INVALID := -1
  isValidTimestamp := fun t => decide (0 ≤ t ∧ t < 9223372036854775807)
  isValid := fun f => f.addr != 0
  NO_FENCE := some ⟨0⟩
  snapshotDefault := ⟨FenceTime.Snapshot.State.EMPTY, some ⟨0⟩, -1⟩

/-- A FenceTime whose cached time is already 42 while Fence 7 is still referenced. -/
def FenceTime.sampleResolved : FenceTime :=
  ⟨FenceTime.State.VALID, some ⟨7⟩, 42⟩

/-- A valid, still pending FenceTime holding Fence 3. -/
def FenceTime.samplePending : FenceTime :=
  FenceTime.ofFence Env.reference (some ⟨3⟩)

/-- A call sequence: a poll answered 99, a cached read, a snapshot, a trusted
snapshot carrying 5 and a trusted snapshot carrying the PENDING sentinel. -/
def FenceTime.sampleOps : List FenceTime.Op :=
  [FenceTime.Op.getSignalTime (fun _ => 99), FenceTime.Op.getCachedSignalTime,
    FenceTime.Op.getSnapshot,
    FenceTime.Op.applyTrustedSnapshot ⟨FenceTime.Snapshot.State.SIGNAL_TIME, none, 5⟩,
    FenceTime.Op.applyTrustedSnapshot
      ⟨FenceTime.Snapshot.State.SIGNAL_TIME, none, 9223372036854775807⟩]

/-- The relation between the members of a FenceTime built by constructor `c` that
the calls maintain: the validity state is the constructed one; while VALID, a
Fence is held exactly when the cached time is PENDING; while INVALID, the cached
time is not PENDING and the held reference is the one the constructor was given. -/
def FenceTime.Consistent (env : Env) (c : FenceTime.Ctor) (self : FenceTime) : Prop :=
  self.mState = (c.build env).mState ∧
  (self.mState = FenceTime.State.VALID →
    (self.mFence ≠ none ↔ self.mSignalTime = env.SIGNAL_TIME_PENDING)) ∧
  (self.mState = FenceTime.State.INVALID →
    self.mSignalTime ≠ env.SIGNAL_TIME_PENDING ∧ self.mFence = c.fence)

/-- The snapshot carried by a call, when the call is `applyTrustedSnapshot` with a
SIGNAL_TIME snapshot, does not carry the PENDING sentinel. -/
def FenceTime.Op.resolvedSnapshot (env : Env) : FenceTime.Op → Prop
  | FenceTime.Op.applyTrustedSnapshot src =>
    src.state = FenceTime.Snapshot.State.SIGNAL_TIME →
      src.signalTime ≠ env.SIGNAL_TIME_PENDING
  | _ => True

/-! ## Snapshot serialisation (`Flattenable`) -/

/-- One byte of a buffer. -/
abbrev Byte := Fin 256

/-- The type `status_t`. -/
abbrev status_t := Int

/-- Modelled from the spec: the status `NO_ERROR` of `utils/Errors.h`, which is not
among the sources; the success status of `flatten` and `unflatten`. -/
def NO_ERROR : status_t := 0

/-- Modelled from the spec: the status `NO_MEMORY` of `utils/Errors.h` (`-ENOMEM`),
which is not among the sources; the insufficient-space condition. -/
def NO_MEMORY : status_t := -12

/-- The four reference parameters `buffer`, `size`, `fds`, `count` of `flatten`.
`buffer` and `fds` only move forward, so each is represented by what has been
stored between its position at entry and its current position. -/
structure FlattenCursor where
  /-- bytes stored so far; the pointer `buffer` has advanced by their number -/
  buffer : List Byte
  /-- the `size_t` value `size` -/
  size : Nat
  /-- descriptors stored so far; the pointer `fds` has advanced by their number -/
  fds : List Int
  /-- the `size_t` value `count` -/
  count : Nat
deriving DecidableEq, Repr

/-- The four reference parameters `buffer`, `size`, `fds`, `count` of `unflatten`.
`buffer` and `fds` are represented by the bytes and descriptors found at and
after their current position. -/
structure UnflattenCursor where
  /-- bytes at and after the position of `buffer` -/
  buffer : List Byte
  /-- the `size_t` value `size` -/
  size : Nat
  /-- descriptors at and after the position of `fds` -/
  fds : List Int
  /-- the `size_t` value `count` -/
  count : Nat
deriving DecidableEq, Repr

/-- Declarations the serialisation code of `FenceTime.cpp` depends on and that are
outside the sources: the width of `size_t`, `sizeof(state)`, and the
`Flattenable` methods of `Fence`. -/
structure Wire where
  /-- number of bits of `size_t` -/
  sizeBits : Nat
  /-- the value `sizeof(state)`: the width of the tag in bytes -/
  tagWidth : Nat
  /-- the method `Fence::getFlattenedSize` -/
  fenceGetFlattenedSize : Fence → Nat
  /-- the method `Fence::getFdCount` -/
  fenceGetFdCount : Fence → Nat
  /-- the method `Fence::flatten` -/
  fenceFlatten : Fence → FlattenCursor → status_t × FlattenCursor
  /-- the statement `new Fence` followed by `Fence::unflatten` on the new object: the
  status, the new object and the cursor afterwards -/
  fenceUnflatten : UnflattenCursor → status_t × Fence × UnflattenCursor

/-- Addition of two `size_t` values. -/
def Wire.sizeAdd (w : Wire) (a b : Nat) : Nat :=
  (a + b) % 2 ^ w.sizeBits

/-- Subtraction of two `size_t` values; it wraps around below zero. -/
def Wire.sizeSub (w : Wire) (a b : Nat) : Nat :=
  (a + (2 ^ w.sizeBits - b % 2 ^ w.sizeBits)) % 2 ^ w.sizeBits

/-- The widths fit: the tag has at least one byte, and a tag followed by a 64-bit
value is a representable `size_t`. -/
def Wire.sane (w : Wire) : Prop :=
  0 < w.tagWidth ∧ w.tagWidth + 8 < 2 ^ w.sizeBits

instance Wire.decidableSane (w : Wire) : Decidable w.sane :=
  inferInstanceAs (Decidable (0 < w.tagWidth ∧ w.tagWidth + 8 < 2 ^ w.sizeBits))

/-- Modelled from the spec: the fixed-width object representation that
`FlattenableUtils::write` stores (`utils/Flattenable.h` is not among the
sources): an unsigned value in `width` bytes, least significant byte first. -/
def encodeLE : Nat → Nat → List Byte
  | 0, _ => []
  | width + 1, v => ⟨v % 256, Nat.mod_lt v (by decide)⟩ :: encodeLE width (v / 256)

/-- Modelled from the spec: the unsigned value that `FlattenableUtils::read` finds in
an object representation, least significant byte first. -/
def decodeLE : List Byte → Nat
  | [] => 0
  | b :: bs => b.val + 256 * decodeLE bs

/-- Modelled from the spec: the fixed-width signed 64-bit representation of a
timestamp (negative values wrap modulo 2^64). -/
def encodeInt64 (t : nsecs_t) : List Byte :=
  encodeLE 8 (t % 2 ^ 64).toNat

/-- Modelled from the spec: the signed 64-bit timestamp with a given object
representation. -/
def decodeInt64 (bytes : List Byte) : nsecs_t :=
  if decodeLE bytes < 2 ^ 63 then (decodeLE bytes : Int) else (decodeLE bytes : Int) - 2 ^ 64

/-- Modelled from the spec: the integer value of a tag (the enum is declared in
`ui/FenceTime.h`, which is not among the sources); the enumerators count from
zero in the order EMPTY, FENCE, SIGNAL_TIME. -/
def FenceTime.Snapshot.State.toRaw : FenceTime.Snapshot.State → Nat
  | FenceTime.Snapshot.State.EMPTY => 0
  | FenceTime.Snapshot.State.FENCE => 1
  | FenceTime.Snapshot.State.SIGNAL_TIME => 2
  | FenceTime.Snapshot.State.unrecognised raw => raw

/-- Modelled from the spec: the tag with a given integer value. -/
def FenceTime.Snapshot.State.ofRaw : Nat → FenceTime.Snapshot.State
  | 0 => FenceTime.Snapshot.State.EMPTY
  | 1 => FenceTime.Snapshot.State.FENCE
  | 2 => FenceTime.Snapshot.State.SIGNAL_TIME
  | raw => FenceTime.Snapshot.State.unrecognised raw

/-- Modelled from the spec: the function `FlattenableUtils::write` of
`utils/Flattenable.h`, which is not among the sources. It stores the object
representation `value` at `buffer`, then advances `buffer` and reduces `size` by
its length, without a bounds check. -/
def FlattenableUtils.write (w : Wire) (cur : FlattenCursor) (value : List Byte) :
    FlattenCursor :=
  { cur with buffer := cur.buffer ++ value, size := w.sizeSub cur.size value.length }

/-- Modelled from the spec: the function `FlattenableUtils::read` of
`utils/Flattenable.h`, which is not among the sources, for an object of `n`
bytes. It yields the bytes at `buffer` and the cursor with `buffer` advanced and
`size` reduced by `n`, without a bounds check. -/
def FlattenableUtils.read (w : Wire) (cur : UnflattenCursor) (n : Nat) :
    List Byte × UnflattenCursor :=
  (cur.buffer.take n, { cur with buffer := cur.buffer.drop n, size := w.sizeSub cur.size n })

namespace FenceTime

/-- Method `FenceTime::Snapshot::getFlattenedSize`. The result is `none` when the
call dereferences a null `fence`. -/
def Snapshot.getFlattenedSize (w : Wire) (self : Snapshot) : Option Nat :=
  let min := w.tagWidth
  match self.state with
  | Snapshot.State.EMPTY => some min
  | Snapshot.State.FENCE =>
    match self.fence with
    | none => none
    | some fence => some (w.sizeAdd min (w.fenceGetFlattenedSize fence))
  | Snapshot.State.SIGNAL_TIME => some (w.sizeAdd min 8)
  | Snapshot.State.unrecognised _ => some 0

/-- Method `FenceTime::Snapshot::getFdCount`. The result is `none` when the call
dereferences a null `fence`. -/
def Snapshot.getFdCount (w : Wire) (self : Snapshot) : Option Nat :=
  if self.state = Snapshot.State.FENCE then
    match self.fence with
    | none => none
    | some fence => some (w.fenceGetFdCount fence)
  else some 0

/-- Method `FenceTime::Snapshot::flatten`: the status and the cursor afterwards. The
result is `none` when the call dereferences a null `fence`. -/
def Snapshot.flatten (w : Wire) (self : Snapshot) (cur : FlattenCursor) :
    Option (status_t × FlattenCursor) :=
  match Snapshot.getFlattenedSize w self with
  | none => none
  | some flattenedSize =>
    if cur.size < flattenedSize then
      some (NO_MEMORY, cur)
    else
      let cur1 := FlattenableUtils.write w cur (encodeLE w.tagWidth self.state.toRaw)
      match self.state with
      | Snapshot.State.EMPTY => some (NO_ERROR, cur1)
      | Snapshot.State.FENCE =>
        match self.fence with
        | none => none
        | some fence => some (w.fenceFlatten fence cur1)
      | Snapshot.State.SIGNAL_TIME =>
        some (NO_ERROR, FlattenableUtils.write w cur1 (encodeInt64 self.signalTime))
      | Snapshot.State.unrecognised _ => some (NO_ERROR, cur1)

/-- Method `FenceTime::Snapshot::unflatten`: the status, the Snapshot and the cursor
afterwards. -/
def Snapshot.unflatten (w : Wire) (self : Snapshot) (cur : UnflattenCursor) :
    status_t × Snapshot × UnflattenCursor :=
  if cur.size < w.tagWidth then
    (NO_MEMORY, self, cur)
  else
    let r := FlattenableUtils.read w cur w.tagWidth
    let self1 := { self with state := Snapshot.State.ofRaw (decodeLE r.1) }
    let cur1 := r.2
    match self1.state with
    | Snapshot.State.EMPTY => (NO_ERROR, self1, cur1)
    | Snapshot.State.FENCE =>
      let f := w.fenceUnflatten cur1
      (f.1, { self1 with fence := some f.2.1 }, f.2.2)
    | Snapshot.State.SIGNAL_TIME =>
      if cur1.size < 8 then
        (NO_MEMORY, self1, cur1)
      else
        let t := FlattenableUtils.read w cur1 8
        (NO_ERROR, { self1 with signalTime := decodeInt64 t.1 }, t.2)
    | Snapshot.State.unrecognised _ => (NO_ERROR, self1, cur1)

end FenceTime

/-- The `Flattenable` methods of a Fence as a concrete function, used to evaluate the
definitions: a Fence is written as its address in four bytes, and carries one
descriptor (its address) unless it is the invalid Fence at address `0`. -/
def Wire.reference : Wire where
  sizeBits := 64
  tagWidth := 4
  fenceGetFlattenedSize := fun _ => 4
  fenceGetFdCount := fun f => if f.addr = 0 then 0 else 1
  fenceFlatten := fun f cur =>
    if cur.size < 4 ∨ cur.count < (if f.addr = 0 then 0 else 1) then (NO_MEMORY, cur)
    else
      (NO_ERROR,
        { buffer := cur.buffer ++ encodeLE 4 f.addr
          size := cur.size - 4
          fds := if f.addr = 0 then cur.fds else cur.fds ++ [(f.addr : Int)]
          count := if f.addr = 0 then cur.count else cur.count - 1 })
  fenceUnflatten := fun cur =>
    if cur.size < 4 then (NO_MEMORY, ⟨0⟩, cur)
    else
      (NO_ERROR, ⟨decodeLE (cur.buffer.take 4)⟩,
        { buffer := cur.buffer.drop 4
          size := cur.size - 4
          fds := if decodeLE (cur.buffer.take 4) = 0 then cur.fds else cur.fds.drop 1
          count := if decodeLE (cur.buffer.take 4) = 0 then cur.count else cur.count - 1 })

/-- The values of the type `int64_t`. -/
def inInt64 (t : nsecs_t) : Prop :=
  -9223372036854775808 ≤ t ∧ t ≤ 9223372036854775807

instance decidableInInt64 (t : nsecs_t) : Decidable (inInt64 t) :=
  inferInstanceAs (Decidable (-9223372036854775808 ≤ t ∧ t ≤ 9223372036854775807))

/-! ## FenceTimeline -/

/-- The FenceTime objects that have a strong owner, by address. A
`weak_ptr<FenceTime>` referring to address `a` can be locked exactly when
`heap a` is `some`; otherwise it has lapsed (or was null from the start). -/
abbrev Heap := Nat → Option FenceTime

/-- The object state of a `FenceTimeline`: `mQueue`, front first. An entry is the
address its `weak_ptr<FenceTime>` refers to. -/
structure FenceTimeline where
  mQueue : List Nat
deriving DecidableEq, Repr

/-- Outcome of one call on a `FenceTimeline`: the FenceTime objects and the queue
afterwards, the entries on which `FenceTime::getSignalTime` was invoked, in
order, and the Fences polled by those invocations. -/
structure TimelineCall where
  heap : Heap
  self : FenceTimeline
  called : List Nat
  polled : List Fence

/-- The `while` loop of `FenceTimeline::push`. `answers n` holds the Fence answers at
the moment of the `n`-th `getSignalTime` invocation still to come. The result is
`none` when `mQueue.front()` is evaluated on an empty queue. -/
def FenceTimeline.pushLoop (env : Env) (MAX_ENTRIES : Nat) :
    List Nat → (Nat → Fence → nsecs_t) → Heap → Option TimelineCall
  | [], _, heap =>
    if MAX_ENTRIES ≤ 0 then none else some ⟨heap, ⟨[]⟩, [], []⟩
  | front :: rest, answers, heap =>
    if MAX_ENTRIES ≤ (front :: rest).length then
      match heap front with
      | some ft =>
        let r := FenceTime.getSignalTime env (answers 0) ft
        match FenceTimeline.pushLoop env MAX_ENTRIES rest (fun n => answers (n + 1))
            (Function.update heap front (some r.self)) with
        | none => none
        | some c => some { c with called := front :: c.called, polled := r.polled ++ c.polled }
      | none => FenceTimeline.pushLoop env MAX_ENTRIES rest answers heap
    else some ⟨heap, ⟨front :: rest⟩, [], []⟩

/-- Method `FenceTimeline::push`; `fence` is the address the `shared_ptr` argument
refers to. -/
def FenceTimeline.push (env : Env) (MAX_ENTRIES : Nat) (answers : Nat → Fence → nsecs_t)
    (heap : Heap) (self : FenceTimeline) (fence : Nat) : Option TimelineCall :=
  match FenceTimeline.pushLoop env MAX_ENTRIES self.mQueue answers heap with
  | none => none
  | some c => some { c with self := ⟨c.self.mQueue ++ [fence]⟩ }

/-- The `while` loop of `FenceTimeline::updateSignalTimes`. -/
def FenceTimeline.updateLoop (env : Env) :
    List Nat → (Nat → Fence → nsecs_t) → Heap → TimelineCall
  | [], _, heap => ⟨heap, ⟨[]⟩, [], []⟩
  | front :: rest, answers, heap =>
    match heap front with
    | none => FenceTimeline.updateLoop env rest answers heap
    | some fence =>
      let r := FenceTime.getSignalTime env (answers 0) fence
      let heap1 := Function.update heap front (some r.self)
      if r.ret ≠ env.SIGNAL_TIME_PENDING then
        let c := FenceTimeline.updateLoop env rest (fun n => answers (n + 1)) heap1
        { c with called := front :: c.called, polled := r.polled ++ c.polled }
      else
        ⟨heap1, ⟨front :: rest⟩, [front], r.polled⟩

/-- Method `FenceTimeline::updateSignalTimes`. -/
def FenceTimeline.updateSignalTimes (env : Env) (answers : Nat → Fence → nsecs_t)
    (heap : Heap) (self : FenceTimeline) : TimelineCall :=
  FenceTimeline.updateLoop env self.mQueue answers heap

/-- One event in the life of a timeline: a `push`, an `updateSignalTimes`, or
anything else that happens between two calls (owners create, resolve and
release FenceTime objects), which leaves the queue alone. -/
inductive TimelineOp
  | push (fence : Nat) (answers : Nat → Fence → nsecs_t)
  | updateSignalTimes (answers : Nat → Fence → nsecs_t)
  | world (heap : Heap)

/-- The event is a `push`. -/
def TimelineOp.isPush : TimelineOp → Bool
  | TimelineOp.push _ _ => true
  | _ => false

/-- The event is an `updateSignalTimes`. -/
def TimelineOp.isSweep : TimelineOp → Bool
  | TimelineOp.updateSignalTimes _ => true
  | _ => false

/-- Perform a sequence of events on a timeline; `none` when a `push` evaluated
`mQueue.front()` on an empty queue. -/
def FenceTimeline.runOps (env : Env) (MAX_ENTRIES : Nat) :
    List TimelineOp → Heap → FenceTimeline → Option (Heap × FenceTimeline)
  | [], heap, self => some (heap, self)
  | TimelineOp.push fence answers :: ops, heap, self =>
    match FenceTimeline.push env MAX_ENTRIES answers heap self fence with
    | none => none
    | some c => FenceTimeline.runOps env MAX_ENTRIES ops c.heap c.self
  | TimelineOp.updateSignalTimes answers :: ops, heap, self =>
    let c := FenceTimeline.updateSignalTimes env answers heap self
    FenceTimeline.runOps env MAX_ENTRIES ops c.heap c.self
  | TimelineOp.world heap1 :: ops, _, self =>
    FenceTimeline.runOps env MAX_ENTRIES ops heap1 self

/-- Three FenceTime objects: at address 0 a pending one holding Fence 3, at address 1
one resolved to 42, at address 2 a pending one holding Fence 5; every other
address has no owner. -/
def Heap.sample : Heap := fun a =>
  if a = 0 then some (FenceTime.ofFence Env.reference (some ⟨3⟩))
  else if a = 1 then some (FenceTime.ofSignalTime Env.reference 42)
  else if a = 2 then some (FenceTime.ofFence Env.reference (some ⟨5⟩))
  else none

/-- Fence answers under which every Fence is still pending. -/
def answersPending : Nat → Fence → nsecs_t :=
  fun _ _ => 9223372036854775807

/-- Fence answers under which every Fence signalled at time 1000. -/
def answersSignalled : Nat → Fence → nsecs_t :=
  fun _ _ => 1000

/-! ## Locks held while a Fence is polled -/

/-- The mutexes of the two classes: `FenceTime::mMutex` of the FenceTime object at an
address, and `FenceTimeline::mMutex`. -/
inductive Mutex
  | fenceTime (address : Nat)
  | timeline
deriving DecidableEq, Repr

/-- What the calling thread does, as far as locking and polling are concerned: it
acquires a mutex (a `std::lock_guard` is constructed), releases it (the guard
goes out of scope), or invokes `Fence::getSignalTime` on a Fence. -/
inductive Event
  | acquire (m : Mutex)
  | release (m : Mutex)
  | poll (fence : Fence)
deriving DecidableEq, Repr

/-- For every poll in a sequence of events, the Fence polled and the mutexes the
thread holds at that moment, given the mutexes `held` at the start. -/
def Event.heldAtPolls : List Mutex → List Event → List (Fence × List Mutex)
  | _, [] => []
  | held, Event.acquire m :: events => Event.heldAtPolls (m :: held) events
  | held, Event.release m :: events => Event.heldAtPolls (held.erase m) events
  | held, Event.poll fence :: events => (fence, held) :: Event.heldAtPolls held events

/-- The events of one `FenceTime::getSignalTime` call on the object at `address`,
following the same branches as `FenceTime.getSignalTime`. -/
def FenceTime.getSignalTimeEvents (env : Env) (fenceAnswer : Fence → nsecs_t) (address : Nat)
    (self : FenceTime) : List Event :=
  let signalTime := self.mSignalTime
  if signalTime ≠ env.SIGNAL_TIME_PENDING then
    []
  else
    match self.mFence with
    | none => [Event.acquire (Mutex.fenceTime address), Event.release (Mutex.fenceTime address)]
    | some fence =>
      let signalTime := fenceAnswer fence
      [Event.acquire (Mutex.fenceTime address), Event.release (Mutex.fenceTime address),
        Event.poll fence] ++
      (if signalTime ≠ env.SIGNAL_TIME_PENDING then
        [Event.acquire (Mutex.fenceTime address), Event.release (Mutex.fenceTime address)]
      else [])

/-- The events of the `while` loop of `FenceTimeline::push`, following the same
branches as `FenceTimeline.pushLoop`. -/
def FenceTimeline.pushLoopEvents (env : Env) (MAX_ENTRIES : Nat) :
    List Nat → (Nat → Fence → nsecs_t) → Heap → Option (List Event)
  | [], _, _ =>
    if MAX_ENTRIES ≤ 0 then none else some []
  | front :: rest, answers, heap =>
    if MAX_ENTRIES ≤ (front :: rest).length then
      match heap front with
      | some ft =>
        let r := FenceTime.getSignalTime env (answers 0) ft
        match FenceTimeline.pushLoopEvents env MAX_ENTRIES rest (fun n => answers (n + 1))
            (Function.update heap front (some r.self)) with
        | none => none
        | some events =>
          some (FenceTime.getSignalTimeEvents env (answers 0) front ft ++ events)
      | none => FenceTimeline.pushLoopEvents env MAX_ENTRIES rest answers heap
    else some []

/-- The events of `FenceTimeline::push`: the guard on `mMutex` lives from the first
statement to the return. -/
def FenceTimeline.pushEvents (env : Env) (MAX_ENTRIES : Nat) (answers : Nat → Fence → nsecs_t)
    (heap : Heap) (self : FenceTimeline) : Option (List Event) :=
  match FenceTimeline.pushLoopEvents env MAX_ENTRIES self.mQueue answers heap with
  | none => none
  | some events =>
    some ([Event.acquire Mutex.timeline] ++ events ++ [Event.release Mutex.timeline])

/-- The events of the `while` loop of `FenceTimeline::updateSignalTimes`, following
the same branches as `FenceTimeline.updateLoop`: the guard on `mMutex` lives for
one iteration of the loop. -/
def FenceTimeline.updateLoopEvents (env : Env) :
    List Nat → (Nat → Fence → nsecs_t) → Heap → List Event
  | [], _, _ => []
  | front :: rest, answers, heap =>
    match heap front with
    | none =>
      [Event.acquire Mutex.timeline, Event.release Mutex.timeline] ++
        FenceTimeline.updateLoopEvents env rest answers heap
    | some fence =>
      let r := FenceTime.getSignalTime env (answers 0) fence
      let heap1 := Function.update heap front (some r.self)
      [Event.acquire Mutex.timeline] ++
        FenceTime.getSignalTimeEvents env (answers 0) front fence ++
        [Event.release Mutex.timeline] ++
        (if r.ret ≠ env.SIGNAL_TIME_PENDING then
          FenceTimeline.updateLoopEvents env rest (fun n => answers (n + 1)) heap1
        else [])

/-- The events of `FenceTimeline::updateSignalTimes`. -/
def FenceTimeline.updateSignalTimesEvents (env : Env) (answers : Nat → Fence → nsecs_t)
    (heap : Heap) (self : FenceTimeline) : List Event :=
  FenceTimeline.updateLoopEvents env self.mQueue answers heap

/-! ## Concurrent callers of `getSignalTime` -/

/-- Where one caller stands inside `FenceTime::getSignalTime`. The method touches
the shared members in four places, each of which is one atomic access or one
block under `mMutex`: the first load of `mSignalTime`; the block that copies
`mFence`; the query of the Fence, which touches no member; and the block that
clears `mFence` and stores `mSignalTime`. -/
inductive Racer
  | start
  | slow
  | holding (fence : Fence)
  | answered (signalTime : nsecs_t)
  | returned (signalTime : nsecs_t)
deriving DecidableEq, Repr

/-- The caller has returned. -/
def Racer.isReturned : Racer → Bool
  | Racer.returned _ => true
  | _ => false

/-- The next of the four places for one caller: where the caller stands afterwards,
the shared object afterwards, and the value stored into `mSignalTime`, if any. -/
def Racer.step (env : Env) (fenceAnswer : Fence → nsecs_t) (shared : FenceTime) :
    Racer → Racer × FenceTime × Option nsecs_t
  | Racer.start =>
    if shared.mSignalTime ≠ env.SIGNAL_TIME_PENDING then
      (Racer.returned shared.mSignalTime, shared, none)
    else (Racer.slow, shared, none)
  | Racer.slow =>
    match shared.mFence with
    | none => (Racer.returned shared.mSignalTime, shared, none)
    | some fence => (Racer.holding fence, shared, none)
  | Racer.holding fence => (Racer.answered (fenceAnswer fence), shared, none)
  | Racer.answered signalTime =>
    if signalTime ≠ env.SIGNAL_TIME_PENDING then
      (Racer.returned signalTime, { shared with mFence := none, mSignalTime := signalTime },
        some signalTime)
    else (Racer.returned signalTime, shared, none)
  | Racer.returned signalTime => (Racer.returned signalTime, shared, none)

/-- Several callers of `getSignalTime` on one FenceTime object: the object, where each
caller stands, and the values stored into `mSignalTime` so far, oldest first. -/
structure Race where
  shared : FenceTime
  threads : List Racer
  stores : List nsecs_t
deriving DecidableEq, Repr

/-- The caller number `tid` performs its next step; `fenceAnswer` is what the Fences
answer at that moment. -/
def Race.step (env : Env) (r : Race) (tid : Nat) (fenceAnswer : Fence → nsecs_t) : Race :=
  match r.threads[tid]? with
  | none => r
  | some t =>
    let next := Racer.step env fenceAnswer r.shared t
    { shared := next.2.1
      threads := r.threads.set tid next.1
      stores := r.stores ++ next.2.2.toList }

/-- An interleaving: the steps are performed in the order of the schedule. -/
def Race.run (env : Env) : List (Nat × (Fence → nsecs_t)) → Race → Race
  | [], r => r
  | (tid, fenceAnswer) :: schedule, r => Race.run env schedule (Race.step env r tid fenceAnswer)

/-- The callers `n` in number, all about to call `getSignalTime` on `shared`. -/
def Race.init (shared : FenceTime) (n : Nat) : Race :=
  ⟨shared, List.replicate n Racer.start, []⟩

/-- Two callers race on a pending FenceTime: both take the slow path and copy the
Fence reference, then the first polls (answer 1000) and stores, then the second
polls (answer 1000) and finishes. -/
def Race.sampleSchedule : List (Nat × (Fence → nsecs_t)) :=
  [(0, fun _ => 1000), (0, fun _ => 1000), (1, fun _ => 1000), (1, fun _ => 1000),
    (0, fun _ => 1000), (0, fun _ => 1000), (1, fun _ => 1000), (1, fun _ => 1000)]

/-! ## Helper lemmas -/

namespace FenceTime

theorem getSignalTime_of_resolved (env : Env) (fenceAnswer : Fence → nsecs_t) (self : FenceTime)
    (h : self.mSignalTime ≠ env.SIGNAL_TIME_PENDING) :
    getSignalTime env fenceAnswer self = { ret := self.mSignalTime, self := self, polled := [] } := by
  simp [getSignalTime, h]

theorem applyTrustedSnapshot_of_resolved (env : Env) (self : FenceTime) (src : Snapshot)
    (h : self.mSignalTime ≠ env.SIGNAL_TIME_PENDING) :
    (applyTrustedSnapshot env self src).1 = self := by
  simp only [applyTrustedSnapshot]
  split_ifs <;> rfl

theorem exec_of_resolved (env : Env) (op : Op) (self : FenceTime)
    (h : self.mSignalTime ≠ env.SIGNAL_TIME_PENDING) :
    (op.exec env self).1 = self ∧ (op.exec env self).2.polled = [] ∧
      ∀ t, (op.exec env self).2.signalTime = some t → t = self.mSignalTime := by
  cases op with
  | getSignalTime fenceAnswer =>
    simp [Op.exec, getSignalTime_of_resolved env fenceAnswer self h]
  | getCachedSignalTime =>
    simp [Op.exec, getCachedSignalTime]
  | getSnapshot =>
    simp [Op.exec]
  | applyTrustedSnapshot src =>
    simp [Op.exec, applyTrustedSnapshot_of_resolved env self src h]

theorem run_of_resolved (env : Env) (ops : List Op) (self : FenceTime)
    (h : self.mSignalTime ≠ env.SIGNAL_TIME_PENDING) :
    (run env ops self).1 = self ∧
      ∀ ob ∈ (run env ops self).2,
        ob.polled = [] ∧ ∀ t, ob.signalTime = some t → t = self.mSignalTime := by
  induction ops with
  | nil => simp [run]
  | cons op ops ih =>
    obtain ⟨h1, h2, h3⟩ := exec_of_resolved env op self h
    simp only [run, h1]
    refine ⟨ih.1, ?_⟩
    intro ob hob
    rcases List.mem_cons.mp hob with hob | hob
    · subst hob
      exact ⟨h2, h3⟩
    · exact ih.2 ob hob

end FenceTime

namespace FenceTime

theorem getSignalTime_mState (env : Env) (fenceAnswer : Fence → nsecs_t) (self : FenceTime) :
    (getSignalTime env fenceAnswer self).self.mState = self.mState := by
  simp only [getSignalTime]
  split_ifs
  · rfl
  · split
    · rfl
    · split_ifs <;> rfl

theorem applyTrustedSnapshot_mState (env : Env) (self : FenceTime) (src : Snapshot) :
    (applyTrustedSnapshot env self src).1.mState = self.mState := by
  simp only [applyTrustedSnapshot]
  split_ifs <;> rfl

theorem exec_mState (env : Env) (op : Op) (self : FenceTime) :
    (op.exec env self).1.mState = self.mState := by
  cases op with
  | getSignalTime fenceAnswer => exact getSignalTime_mState env fenceAnswer self
  | getCachedSignalTime => rfl
  | getSnapshot => rfl
  | applyTrustedSnapshot src => exact applyTrustedSnapshot_mState env self src

theorem run_mState (env : Env) (ops : List Op) (self : FenceTime) :
    (run env ops self).1.mState = self.mState := by
  induction ops generalizing self with
  | nil => rfl
  | cons op ops ih =>
    simp only [run]
    rw [ih, exec_mState]

theorem build_mState (env : Env) (c : Ctor) :
    (c.build env).mState =
      (match c with
        | Ctor.copyFence fence => if fenceUsable env fence then State.VALID else State.INVALID
        | Ctor.moveFence fence => if fenceUsable env fence then State.VALID else State.INVALID
        | Ctor.time T => if env.isValidTimestamp T then State.VALID else State.INVALID) := by
  cases c <;> rfl

theorem build_mFence (env : Env) (c : Ctor) : (c.build env).mFence = c.fence := by
  cases c <;> rfl

theorem build_invalid_resolved (env : Env) (c : Ctor)
    (hdistinct : env.SIGNAL_TIME_PENDING ≠ env.SIGNAL_TIME_INVALID)
    (hinvalid : (c.build env).mState = State.INVALID) :
    (c.build env).mSignalTime ≠ env.SIGNAL_TIME_PENDING := by
  cases c with
  | copyFence fence =>
    simp only [Ctor.build, ofFence] at hinvalid ⊢
    rw [if_pos hinvalid]
    exact fun h => hdistinct h.symm
  | moveFence fence =>
    simp only [Ctor.build, ofFenceMove] at hinvalid ⊢
    rw [if_pos hinvalid]
    exact fun h => hdistinct h.symm
  | time T =>
    simp only [Ctor.build, ofSignalTime]
    split_ifs with h
    · exact fun h => hdistinct h.symm
    · exact h

theorem build_valid_usable (env : Env) (c : Ctor) (hvalid : (c.build env).mState = State.VALID) :
    ¬ (c.fence ≠ none ∧ fenceUsable env c.fence = false) := by
  cases c with
  | copyFence fence =>
    simp only [Ctor.build, ofFence] at hvalid
    simp only [Ctor.fence]
    cases hu : fenceUsable env fence with
    | false => simp [hu] at hvalid
    | true => simp
  | moveFence fence =>
    simp only [Ctor.build, ofFenceMove] at hvalid
    simp only [Ctor.fence]
    cases hu : fenceUsable env fence with
    | false => simp [hu] at hvalid
    | true => simp
  | time T => simp [Ctor.fence]

theorem build_invalid_unusable (env : Env) (c : Ctor)
    (hinvalid : (c.build env).mState = State.INVALID) (hsome : c.fence ≠ none) :
    fenceUsable env c.fence = false := by
  cases c with
  | copyFence fence =>
    simp only [Ctor.build, ofFence] at hinvalid
    simp only [Ctor.fence]
    cases hu : fenceUsable env fence with
    | false => rfl
    | true => simp [hu] at hinvalid
  | moveFence fence =>
    simp only [Ctor.build, ofFenceMove] at hinvalid
    simp only [Ctor.fence]
    cases hu : fenceUsable env fence with
    | false => rfl
    | true => simp [hu] at hinvalid
  | time T => exact absurd rfl hsome

theorem consistent_build (env : Env) (c : Ctor)
    (hdistinct : env.SIGNAL_TIME_PENDING ≠ env.SIGNAL_TIME_INVALID) :
    Consistent env c (c.build env) := by
  refine ⟨rfl, ?_, ?_⟩
  · intro hvalid
    cases c with
    | copyFence fence =>
      simp only [Ctor.build, ofFence] at hvalid ⊢
      cases hu : fenceUsable env fence with
      | false => simp [hu] at hvalid
      | true =>
        cases fence with
        | none => simp [fenceUsable] at hu
        | some f => simp
    | moveFence fence =>
      simp only [Ctor.build, ofFenceMove] at hvalid ⊢
      cases hu : fenceUsable env fence with
      | false => simp [hu] at hvalid
      | true =>
        cases fence with
        | none => simp [fenceUsable] at hu
        | some f => simp
    | time T =>
      simp only [Ctor.build, ofSignalTime]
      split_ifs with h
      · simpa using fun h => hdistinct h.symm
      · simpa using h
  · intro hinvalid
    exact ⟨build_invalid_resolved env c hdistinct hinvalid, build_mFence env c⟩

theorem consistent_exec (env : Env) (c : Ctor) (op : Op) (self : FenceTime)
    (hop : op.resolvedSnapshot env) (h : Consistent env c self) :
    Consistent env c (op.exec env self).1 := by
  by_cases hres : self.mSignalTime ≠ env.SIGNAL_TIME_PENDING
  · rw [(exec_of_resolved env op self hres).1]
    exact h
  · have hpend : self.mSignalTime = env.SIGNAL_TIME_PENDING := not_not.mp hres
    obtain ⟨h1, h2, h3⟩ := h
    have hvalid : self.mState = State.VALID := by
      cases hs : self.mState with
      | VALID => rfl
      | INVALID => exact absurd hpend (h3 hs).1
    cases op with
    | getCachedSignalTime => exact ⟨h1, h2, h3⟩
    | getSnapshot => exact ⟨h1, h2, h3⟩
    | getSignalTime fenceAnswer =>
      simp only [Op.exec, getSignalTime]
      rw [if_neg hres]
      cases hf : self.mFence with
      | none => exact ⟨h1, h2, h3⟩
      | some fence =>
        simp only []
        split_ifs with hans
        · refine ⟨h1, ?_, ?_⟩
          · intro _
            simpa using hans
          · intro hs
            rw [hvalid] at hs
            cases hs
        · exact ⟨h1, h2, h3⟩
    | applyTrustedSnapshot src =>
      simp only [Op.exec, applyTrustedSnapshot]
      split_ifs with hk he
      · exact ⟨h1, h2, h3⟩
      · exact ⟨h1, h2, h3⟩
      · refine ⟨h1, ?_, ?_⟩
        · intro _
          have := hop (not_not.mp hk)
          simpa using this
        · intro hs
          rw [hvalid] at hs
          cases hs

theorem consistent_run (env : Env) (c : Ctor) (ops : List Op) (self : FenceTime)
    (hops : ∀ op ∈ ops, op.resolvedSnapshot env) (h : Consistent env c self) :
    Consistent env c (run env ops self).1 := by
  induction ops generalizing self with
  | nil => exact h
  | cons op ops ih =>
    simp only [run]
    exact ih _ (fun o ho => hops o (List.mem_cons_of_mem _ ho))
      (consistent_exec env c op self (hops op (List.mem_cons_self _ _)) h)

end FenceTime

/-! ## Claims -/

namespace FenceTime

/-- C1 (memoize-once, sequential form). Let the cached signal time of a FenceTime
be a non-PENDING value `T`. After any sequence `ops` of `getSignalTime`,
`getCachedSignalTime`, `getSnapshot` and `applyTrustedSnapshot` calls, with
arbitrary Fence answers and arbitrary snapshots, the cached signal time is still
`T`; a further `getSignalTime` and a further `getCachedSignalTime` return `T`; no
call of the sequence and not the further `getSignalTime` polls any Fence; and
every `getSignalTime` or `getCachedSignalTime` call inside the sequence returned
`T`. -/
theorem C1_memoize_once (env : Env) (self : FenceTime) (T : nsecs_t) (ops : List Op)
    (fenceAnswer : Fence → nsecs_t)
    (hT : self.mSignalTime = T) (hpending : T ≠ env.SIGNAL_TIME_PENDING) :
    (run env ops self).1.mSignalTime = T ∧
    (getSignalTime env fenceAnswer (run env ops self).1).ret = T ∧
    (getSignalTime env fenceAnswer (run env ops self).1).polled = [] ∧
    getCachedSignalTime (run env ops self).1 = T ∧
    ∀ ob ∈ (run env ops self).2,
      ob.polled = [] ∧ ∀ t, ob.signalTime = some t → t = T := by
  subst hT
  obtain ⟨h1, h2⟩ := run_of_resolved env ops self hpending
  rw [h1, getSignalTime_of_resolved env fenceAnswer self hpending]
  exact ⟨rfl, rfl, rfl, rfl, h2⟩

/-- Witness of C1: a FenceTime already resolved to 42 while still holding Fence 7,
driven through a poll answering 99, a cached read, a snapshot, a conflicting
trusted snapshot and a trusted snapshot carrying PENDING. -/
theorem C1_memoize_once_witness :
    sampleResolved.mSignalTime = 42 ∧
    (42 : nsecs_t) ≠ Env.reference.SIGNAL_TIME_PENDING ∧
    (run Env.reference sampleOps sampleResolved).1.mSignalTime = 42 ∧
    (getSignalTime Env.reference (fun _ => 99)
      (run Env.reference sampleOps sampleResolved).1).ret = 42 ∧
    (getSignalTime Env.reference (fun _ => 99)
      (run Env.reference sampleOps sampleResolved).1).polled = [] ∧
    getCachedSignalTime (run Env.reference sampleOps sampleResolved).1 = 42 :=
  have h :=
    C1_memoize_once Env.reference sampleResolved 42 sampleOps (fun _ => 99) rfl (by decide)
  ⟨rfl, by decide, h.1, h.2.1, h.2.2.1, h.2.2.2.1⟩

/-- C2. Let the cached signal time be PENDING. If a Fence is held, `getSignalTime`
polls exactly that Fence and returns exactly its answer `r`; when `r` is not
PENDING the cached time becomes `r`, the held reference becomes null and the
validity state is kept; when `r` is PENDING the whole object state is unchanged.
If no Fence is held, `getSignalTime` returns the cached value, polls no Fence
and changes nothing. -/
theorem C2_getSignalTime_pending (env : Env) (fenceAnswer : Fence → nsecs_t) (self : FenceTime)
    (hpending : self.mSignalTime = env.SIGNAL_TIME_PENDING) :
    (∀ fence, self.mFence = some fence →
      (getSignalTime env fenceAnswer self).ret = fenceAnswer fence ∧
      (getSignalTime env fenceAnswer self).polled = [fence] ∧
      (fenceAnswer fence ≠ env.SIGNAL_TIME_PENDING →
        (getSignalTime env fenceAnswer self).self.mSignalTime = fenceAnswer fence ∧
        (getSignalTime env fenceAnswer self).self.mFence = none ∧
        (getSignalTime env fenceAnswer self).self.mState = self.mState) ∧
      (fenceAnswer fence = env.SIGNAL_TIME_PENDING →
        (getSignalTime env fenceAnswer self).self = self)) ∧
    (self.mFence = none →
      (getSignalTime env fenceAnswer self).ret = self.mSignalTime ∧
      (getSignalTime env fenceAnswer self).polled = [] ∧
      (getSignalTime env fenceAnswer self).self = self) := by
  refine ⟨?_, ?_⟩
  · intro fence hf
    by_cases hr : fenceAnswer fence = env.SIGNAL_TIME_PENDING
    · simp [getSignalTime, hpending, hf, hr]
    · simp [getSignalTime, hpending, hf, hr]
  · intro hf
    simp [getSignalTime, hpending, hf]

/-- Witness of C2: a pending FenceTime holding Fence 3, whose Fence answers 1234. -/
theorem C2_getSignalTime_pending_witness :
    samplePending.mSignalTime = Env.reference.SIGNAL_TIME_PENDING ∧
    samplePending.mFence = some ⟨3⟩ ∧
    (getSignalTime Env.reference (fun _ => 1234) samplePending).ret = 1234 ∧
    (getSignalTime Env.reference (fun _ => 1234) samplePending).polled = [⟨3⟩] ∧
    (getSignalTime Env.reference (fun _ => 1234) samplePending).self.mSignalTime = 1234 ∧
    (getSignalTime Env.reference (fun _ => 1234) samplePending).self.mFence = none :=
  have h := (C2_getSignalTime_pending Env.reference (fun _ => 1234) samplePending rfl).1 ⟨3⟩ rfl
  ⟨rfl, rfl, h.1, h.2.1, (h.2.2.1 (by decide)).1, (h.2.2.1 (by decide)).2.1⟩

/-- C3, the claim as stated fails: constructed from the PENDING sentinel, a
FenceTime does not return PENDING from `getSignalTime` (it returns the INVALID
sentinel). -/
theorem C3_counterexample :
    ¬ (getSignalTime Env.reference (fun _ => 0)
        (ofSignalTime Env.reference 9223372036854775807)).ret = 9223372036854775807 := by
  decide

/-- C3 (amended). For every timestamp `T`, a FenceTime constructed from `T` holds no
Fence, and `getSignalTime` right after construction polls no Fence, leaves the
object as constructed, and returns `T`, except that for `T` the PENDING sentinel
it returns the INVALID sentinel. -/
theorem C3_ofSignalTime_getSignalTime (env : Env) (fenceAnswer : Fence → nsecs_t) (T : nsecs_t) :
    (ofSignalTime env T).mFence = none ∧
    (getSignalTime env fenceAnswer (ofSignalTime env T)).ret =
      (if T = env.SIGNAL_TIME_PENDING then env.SIGNAL_TIME_INVALID else T) ∧
    (getSignalTime env fenceAnswer (ofSignalTime env T)).polled = [] ∧
    (getSignalTime env fenceAnswer (ofSignalTime env T)).self = ofSignalTime env T := by
  refine ⟨rfl, ?_, ?_, ?_⟩ <;>
    · simp only [getSignalTime, ofSignalTime]
      split_ifs <;> rfl

/-- C4, the claim as stated fails in both directions. Built from the non-null
invalid Fence 0, a FenceTime holds a Fence although its cached time is not
PENDING and its state is not VALID; and a valid pending FenceTime to which a
SIGNAL_TIME snapshot carrying the PENDING sentinel is applied is PENDING and
VALID although it holds no Fence. -/
theorem C4_counterexample :
    ¬ ((ofFence Env.reference (some ⟨0⟩)).mFence ≠ none ↔
        ((ofFence Env.reference (some ⟨0⟩)).mSignalTime = Env.reference.SIGNAL_TIME_PENDING ∧
          (ofFence Env.reference (some ⟨0⟩)).mState = State.VALID)) ∧
    ¬ ((run Env.reference
          [Op.applyTrustedSnapshot (Snapshot.ofSignalTime Env.reference 9223372036854775807)]
          (ofFence Env.reference (some ⟨3⟩))).1.mFence ≠ none ↔
        ((run Env.reference
            [Op.applyTrustedSnapshot (Snapshot.ofSignalTime Env.reference 9223372036854775807)]
            (ofFence Env.reference (some ⟨3⟩))).1.mSignalTime =
              Env.reference.SIGNAL_TIME_PENDING ∧
          (run Env.reference
            [Op.applyTrustedSnapshot (Snapshot.ofSignalTime Env.reference 9223372036854775807)]
            (ofFence Env.reference (some ⟨3⟩))).1.mState = State.VALID)) := by
  decide

/-- C4 (amended). Let the two sentinels be distinct. In every state reached by one
of the three constructors followed by any sequence of `getSignalTime`,
`getSnapshot`, `getCachedSignalTime` and `applyTrustedSnapshot` calls in which no
applied SIGNAL_TIME snapshot carries the PENDING sentinel, the held Fence
reference is non-null if and only if either the cached signal time is PENDING and
the state is VALID, or the constructor was given a non-null Fence that failed the
validity test (that reference stays held). -/
theorem C4_fence_held_iff (env : Env) (c : Ctor) (ops : List Op)
    (hdistinct : env.SIGNAL_TIME_PENDING ≠ env.SIGNAL_TIME_INVALID)
    (hops : ∀ src, Op.applyTrustedSnapshot src ∈ ops →
      src.state = Snapshot.State.SIGNAL_TIME → src.signalTime ≠ env.SIGNAL_TIME_PENDING) :
    ((run env ops (c.build env)).1.mFence ≠ none ↔
      ((run env ops (c.build env)).1.mSignalTime = env.SIGNAL_TIME_PENDING ∧
          (run env ops (c.build env)).1.mState = State.VALID) ∨
        (c.fence ≠ none ∧ fenceUsable env c.fence = false)) := by
  have hops2 : ∀ op ∈ ops, op.resolvedSnapshot env := by
    intro op hop
    cases op with
    | applyTrustedSnapshot src => exact hops src hop
    | getSignalTime _ => trivial
    | getCachedSignalTime => trivial
    | getSnapshot => trivial
  obtain ⟨h1, h2, h3⟩ :=
    consistent_run env c ops (c.build env) hops2 (consistent_build env c hdistinct)
  generalize (run env ops (c.build env)).1 = ft at h1 h2 h3 ⊢
  cases hs : ft.mState with
  | VALID =>
    have hno := build_valid_usable env c (h1 ▸ hs)
    rw [h2 hs]
    constructor
    · intro hp
      exact Or.inl ⟨hp, rfl⟩
    · rintro (⟨hp, _⟩ | hbad)
      · exact hp
      · exact absurd hbad hno
  | INVALID =>
    obtain ⟨hnp, hfence⟩ := h3 hs
    rw [hfence]
    constructor
    · intro hsome
      exact Or.inr ⟨hsome, build_invalid_unusable env c (h1 ▸ hs) hsome⟩
    · rintro (⟨_, hv⟩ | ⟨hsome, _⟩)
      · cases hv
      · exact hsome

/-- Witness of C4: a FenceTime built from the valid Fence 3 and driven through the
sample calls without the PENDING-carrying snapshot. -/
theorem C4_fence_held_iff_witness :
    Env.reference.SIGNAL_TIME_PENDING ≠ Env.reference.SIGNAL_TIME_INVALID ∧
    ((run Env.reference sampleOps.dropLast (Ctor.build Env.reference
        (Ctor.copyFence (some ⟨3⟩)))).1.mFence ≠ none ↔
      ((run Env.reference sampleOps.dropLast (Ctor.build Env.reference
          (Ctor.copyFence (some ⟨3⟩)))).1.mSignalTime = Env.reference.SIGNAL_TIME_PENDING ∧
        (run Env.reference sampleOps.dropLast (Ctor.build Env.reference
          (Ctor.copyFence (some ⟨3⟩)))).1.mState = State.VALID) ∨
      (Ctor.fence (Ctor.copyFence (some ⟨3⟩)) ≠ none ∧
        fenceUsable Env.reference (Ctor.fence (Ctor.copyFence (some ⟨3⟩))) = false)) :=
  ⟨by decide,
    C4_fence_held_iff Env.reference (Ctor.copyFence (some ⟨3⟩)) sampleOps.dropLast (by decide)
      (by
        intro src hsrc _
        simp [sampleOps, List.dropLast] at hsrc
        subst hsrc
        decide)⟩

/-- C5, the claim as stated fails: the shared instance `FenceTime::NO_FENCE`, built
from the non-null invalid Fence `Fence::NO_FENCE`, is INVALID and its cached time
is the INVALID sentinel, yet it holds a Fence reference. -/
theorem C5_counterexample :
    (NO_FENCE Env.reference).mState = State.INVALID ∧
    ¬ ((NO_FENCE Env.reference).mSignalTime = Env.reference.SIGNAL_TIME_INVALID ∧
        (NO_FENCE Env.reference).mFence = none) := by
  decide

/-- C5 (amended). Let the two sentinels be distinct and let a constructor produce a
FenceTime whose state is INVALID. After any sequence of calls the object is
exactly as constructed and no call polled a Fence; its held reference is the one
the constructor was given (null for a null Fence and for a timestamp, non-null
for a non-null Fence that failed the validity test); its cached signal time is
the INVALID sentinel when built from a Fence, and when built from a timestamp `T`
it is `T`, with the PENDING sentinel replaced by the INVALID sentinel. -/
theorem C5_invalid_state (env : Env) (c : Ctor) (ops : List Op)
    (hdistinct : env.SIGNAL_TIME_PENDING ≠ env.SIGNAL_TIME_INVALID)
    (hinvalid : (c.build env).mState = State.INVALID) :
    (run env ops (c.build env)).1 = c.build env ∧
    (∀ ob ∈ (run env ops (c.build env)).2, ob.polled = []) ∧
    (run env ops (c.build env)).1.mFence = c.fence ∧
    (run env ops (c.build env)).1.mSignalTime =
      (match c with
        | Ctor.copyFence _ => env.SIGNAL_TIME_INVALID
        | Ctor.moveFence _ => env.SIGNAL_TIME_INVALID
        | Ctor.time T => if T = env.SIGNAL_TIME_PENDING then env.SIGNAL_TIME_INVALID else T) := by
  obtain ⟨h1, h2⟩ :=
    run_of_resolved env ops (c.build env) (build_invalid_resolved env c hdistinct hinvalid)
  rw [h1]
  refine ⟨rfl, fun ob hob => (h2 ob hob).1, build_mFence env c, ?_⟩
  cases c with
  | copyFence fence =>
    simp only [Ctor.build, ofFence] at hinvalid ⊢
    rw [if_pos hinvalid]
  | moveFence fence =>
    simp only [Ctor.build, ofFenceMove] at hinvalid ⊢
    rw [if_pos hinvalid]
  | time T => rfl

/-- Witness of C5: a FenceTime built from a null Fence, driven through the sample
calls. -/
theorem C5_invalid_state_witness :
    Env.reference.SIGNAL_TIME_PENDING ≠ Env.reference.SIGNAL_TIME_INVALID ∧
    (Ctor.build Env.reference (Ctor.copyFence none)).mState = State.INVALID ∧
    (run Env.reference sampleOps (Ctor.build Env.reference (Ctor.copyFence none))).1 =
      Ctor.build Env.reference (Ctor.copyFence none) ∧
    (run Env.reference sampleOps (Ctor.build Env.reference (Ctor.copyFence none))).1.mFence =
      none ∧
    (run Env.reference sampleOps (Ctor.build Env.reference (Ctor.copyFence none))).1.mSignalTime =
      Env.reference.SIGNAL_TIME_INVALID :=
  have h := C5_invalid_state Env.reference (Ctor.copyFence none) sampleOps (by decide) rfl
  ⟨by decide, rfl, h.1, h.2.2.1, h.2.2.2⟩

/-- C6. `isValid()` returns the validity fixed by the constructor: built from a Fence
reference (copied or moved) it is true exactly when the reference is non-null
and the Fence answers `isValid()` with true; built from a timestamp `T` it is
`Fence::isValidTimestamp(T)`; and no sequence of `getSignalTime`, `getSnapshot`,
`getCachedSignalTime` and `applyTrustedSnapshot` calls, whatever the Fence
answers and the snapshots, changes what `isValid()` returns. -/
theorem C6_isValid_fixed (env : Env) :
    (∀ fence : Option Fence,
      isValid (ofFence env fence) = true ↔ ∃ f, fence = some f ∧ env.isValid f = true) ∧
    (∀ fence : Option Fence,
      isValid (ofFenceMove env fence) = true ↔ ∃ f, fence = some f ∧ env.isValid f = true) ∧
    (∀ T : nsecs_t, isValid (ofSignalTime env T) = env.isValidTimestamp T) ∧
    (∀ (self : FenceTime) (ops : List Op), isValid (run env ops self).1 = isValid self) := by
  refine ⟨?_, ?_, ?_, ?_⟩
  · intro fence
    cases fence with
    | none => simp [isValid, ofFence, fenceUsable]
    | some f => cases hf : env.isValid f <;> simp [isValid, ofFence, fenceUsable, hf]
  · intro fence
    cases fence with
    | none => simp [isValid, ofFenceMove, fenceUsable]
    | some f => cases hf : env.isValid f <;> simp [isValid, ofFenceMove, fenceUsable, hf]
  · intro T
    cases hT : env.isValidTimestamp T <;> simp [isValid, ofSignalTime, hT]
  · intro self ops
    simp only [isValid, run_mState]

/-- C7. `getSnapshot` leaves the FenceTime unchanged. When the cached value is not
PENDING it returns a snapshot of kind SIGNAL_TIME whose `signalTime` is the
cached value; otherwise it returns a snapshot of kind FENCE whose `fence` is the
very reference currently held. The kind is never EMPTY. -/
theorem C7_getSnapshot (env : Env) (self : FenceTime) :
    (Op.exec env Op.getSnapshot self).1 = self ∧
    (Op.exec env Op.getSnapshot self).2.snapshot = some (getSnapshot env self) ∧
    (if self.mSignalTime ≠ env.SIGNAL_TIME_PENDING then
      (getSnapshot env self).state = Snapshot.State.SIGNAL_TIME ∧
        (getSnapshot env self).signalTime = self.mSignalTime
    else
      (getSnapshot env self).state = Snapshot.State.FENCE ∧
        (getSnapshot env self).fence = self.mFence) ∧
    (getSnapshot env self).state ≠ Snapshot.State.EMPTY := by
  refine ⟨rfl, rfl, ?_, ?_⟩
  · by_cases h : self.mSignalTime = env.SIGNAL_TIME_PENDING
    · simp [getSnapshot, h, Snapshot.ofFence]
    · simp [getSnapshot, h, Snapshot.ofSignalTime]
  · by_cases h : self.mSignalTime = env.SIGNAL_TIME_PENDING
    · simp [getSnapshot, h, Snapshot.ofFence]
    · simp [getSnapshot, h, Snapshot.ofSignalTime]

/-- C8. Let the cached signal time be PENDING and `s` a snapshot of kind
SIGNAL_TIME. After `applyTrustedSnapshot(s)` the cached signal time is
`s.signalTime`, the held Fence reference is null and the validity is unchanged;
a following `getSignalTime` returns `s.signalTime` and polls no Fence. -/
theorem C8_apply_pending (env : Env) (self : FenceTime) (s : Snapshot)
    (fenceAnswer : Fence → nsecs_t)
    (hpending : self.mSignalTime = env.SIGNAL_TIME_PENDING)
    (hkind : s.state = Snapshot.State.SIGNAL_TIME) :
    (applyTrustedSnapshot env self s).1.mSignalTime = s.signalTime ∧
    (applyTrustedSnapshot env self s).1.mFence = none ∧
    (applyTrustedSnapshot env self s).1.mState = self.mState ∧
    isValid (applyTrustedSnapshot env self s).1 = isValid self ∧
    (getSignalTime env fenceAnswer (applyTrustedSnapshot env self s).1).ret = s.signalTime ∧
    (getSignalTime env fenceAnswer (applyTrustedSnapshot env self s).1).polled = [] := by
  have happly : (applyTrustedSnapshot env self s).1 =
      { self with mFence := none, mSignalTime := s.signalTime } := by
    simp [applyTrustedSnapshot, hkind, hpending]
  rw [happly]
  refine ⟨rfl, rfl, rfl, rfl, ?_, ?_⟩
  · by_cases h : s.signalTime = env.SIGNAL_TIME_PENDING
    · simp [getSignalTime, h]
    · simp [getSignalTime, h]
  · by_cases h : s.signalTime = env.SIGNAL_TIME_PENDING
    · simp [getSignalTime, h]
    · simp [getSignalTime, h]

/-- Witness of C8: the pending FenceTime holding Fence 3 receives the trusted time
777. -/
theorem C8_apply_pending_witness :
    samplePending.mSignalTime = Env.reference.SIGNAL_TIME_PENDING ∧
    (Snapshot.ofSignalTime Env.reference 777).state = Snapshot.State.SIGNAL_TIME ∧
    (applyTrustedSnapshot Env.reference samplePending
      (Snapshot.ofSignalTime Env.reference 777)).1.mSignalTime = 777 ∧
    (applyTrustedSnapshot Env.reference samplePending
      (Snapshot.ofSignalTime Env.reference 777)).1.mFence = none ∧
    (getSignalTime Env.reference (fun _ => 5) (applyTrustedSnapshot Env.reference samplePending
      (Snapshot.ofSignalTime Env.reference 777)).1).ret = 777 ∧
    (getSignalTime Env.reference (fun _ => 5) (applyTrustedSnapshot Env.reference samplePending
      (Snapshot.ofSignalTime Env.reference 777)).1).polled = [] :=
  have h := C8_apply_pending Env.reference samplePending
    (Snapshot.ofSignalTime Env.reference 777) (fun _ => 5) rfl rfl
  ⟨rfl, rfl, h.1, h.2.1, h.2.2.2.2.1, h.2.2.2.2.2⟩

/-- C9. Let the cached signal time already be a non-PENDING value and `s` a
snapshot of kind SIGNAL_TIME, with any `signalTime`. `applyTrustedSnapshot(s)`
returns with the whole object state unchanged; it logs the mismatch message
exactly when `s.signalTime` differs from the cached value. -/
theorem C9_apply_resolved (env : Env) (self : FenceTime) (s : Snapshot)
    (hresolved : self.mSignalTime ≠ env.SIGNAL_TIME_PENDING)
    (hkind : s.state = Snapshot.State.SIGNAL_TIME) :
    (applyTrustedSnapshot env self s).1 = self ∧
    (applyTrustedSnapshot env self s).2 =
      (if self.mSignalTime ≠ s.signalTime then
        [LogE.signalTimeMismatch self.mSignalTime s.signalTime]
      else []) := by
  simp [applyTrustedSnapshot, hkind, hresolved]

/-- Witness of C9: the FenceTime resolved to 42 receives a trusted snapshot
carrying 5. -/
theorem C9_apply_resolved_witness :
    sampleResolved.mSignalTime ≠ Env.reference.SIGNAL_TIME_PENDING ∧
    (applyTrustedSnapshot Env.reference sampleResolved
      (Snapshot.ofSignalTime Env.reference 5)).1 = sampleResolved :=
  ⟨by decide,
    (C9_apply_resolved Env.reference sampleResolved (Snapshot.ofSignalTime Env.reference 5)
      (by decide) rfl).1⟩

/-- C10. For a FenceTime in any state and a snapshot whose kind is not SIGNAL_TIME
(FENCE, EMPTY or an unrecognised tag), `applyTrustedSnapshot` changes nothing:
cached signal time, held Fence reference and validity are as before the call.
The call logs the unexpected-fence message. -/
theorem C10_apply_wrong_kind (env : Env) (self : FenceTime) (s : Snapshot)
    (hkind : s.state ≠ Snapshot.State.SIGNAL_TIME) :
    (applyTrustedSnapshot env self s).1 = self ∧
    (applyTrustedSnapshot env self s).2 = [LogE.unexpectedFence] := by
  simp [applyTrustedSnapshot, hkind]

/-- Witness of C10: a FENCE snapshot of Fence 9 applied to the pending FenceTime
holding Fence 3. -/
theorem C10_apply_wrong_kind_witness :
    (Snapshot.ofFence Env.reference (some ⟨9⟩)).state ≠ Snapshot.State.SIGNAL_TIME ∧
    (applyTrustedSnapshot Env.reference samplePending
      (Snapshot.ofFence Env.reference (some ⟨9⟩))).1 = samplePending :=
  ⟨by decide,
    (C10_apply_wrong_kind Env.reference samplePending (Snapshot.ofFence Env.reference (some ⟨9⟩))
      (by decide)).1⟩

end FenceTime

/-! ## Serialisation lemmas -/

theorem encodeLE_length (width v : Nat) : (encodeLE width v).length = width := by
  induction width generalizing v with
  | zero => rfl
  | succ n ih => simp [encodeLE, ih]

theorem decodeLE_encodeLE (width v : Nat) : decodeLE (encodeLE width v) = v % 256 ^ width := by
  induction width generalizing v with
  | zero => simp [encodeLE, decodeLE, Nat.mod_one]
  | succ n ih =>
    simp only [encodeLE, decodeLE, ih]
    rw [pow_succ, Nat.mul_comm (256 ^ n) 256, Nat.mod_mul]

theorem decodeLE_encodeLE_small (width v : Nat) (hwidth : 0 < width) (hv : v < 256) :
    decodeLE (encodeLE width v) = v := by
  rw [decodeLE_encodeLE]
  apply Nat.mod_eq_of_lt
  calc v < 256 := hv
    _ = 256 ^ 1 := by norm_num
    _ ≤ 256 ^ width := Nat.pow_le_pow_right (by norm_num) hwidth

theorem emod_two_pow_64 (t : Int) (hlo : -9223372036854775808 ≤ t)
    (hhi : t ≤ 9223372036854775807) :
    t % 18446744073709551616 = if t < 0 then t + 18446744073709551616 else t := by
  split_ifs with h
  · rw [← Int.add_emod_self]
    exact Int.emod_eq_of_lt (by omega) (by omega)
  · exact Int.emod_eq_of_lt (by omega) (by omega)

theorem decodeInt64_encodeInt64 (t : Int) (hlo : -9223372036854775808 ≤ t)
    (hhi : t ≤ 9223372036854775807) :
    decodeInt64 (encodeInt64 t) = t := by
  have hm : (((t % 2 ^ 64).toNat : Nat) : Int) = t % 18446744073709551616 := by
    rw [Int.toNat_of_nonneg (Int.emod_nonneg _ (by norm_num))]
    norm_num
  rw [emod_two_pow_64 t hlo hhi] at hm
  have h256 : (256 : Nat) ^ 8 = 18446744073709551616 := by norm_num
  have h63 : (2 : Nat) ^ 63 = 9223372036854775808 := by norm_num
  have h64 : (2 : Int) ^ 64 = 18446744073709551616 := by norm_num
  unfold decodeInt64 encodeInt64
  rw [decodeLE_encodeLE, h256]
  generalize (t % 2 ^ 64).toNat = m at hm ⊢
  have hmlt : m < 18446744073709551616 := by
    split_ifs at hm <;> omega
  rw [h63, h64, Nat.mod_eq_of_lt hmlt]
  split_ifs at hm <;> split_ifs <;> first | exact hm | omega | (rw [hm]; ring)

theorem encodeInt64_length (t : nsecs_t) : (encodeInt64 t).length = 8 :=
  encodeLE_length 8 _

theorem Wire.sizeSub_of_le (w : Wire) (a b : Nat) (ha : a < 2 ^ w.sizeBits) (hb : b ≤ a) :
    w.sizeSub a b = a - b := by
  unfold Wire.sizeSub
  have hb2 : b % 2 ^ w.sizeBits = b := Nat.mod_eq_of_lt (lt_of_le_of_lt hb ha)
  rw [hb2]
  have : a + (2 ^ w.sizeBits - b) = (a - b) + 2 ^ w.sizeBits := by omega
  rw [this, Nat.add_mod_right]
  exact Nat.mod_eq_of_lt (by omega)

theorem Wire.sizeAdd_of_lt (w : Wire) (a b : Nat) (h : a + b < 2 ^ w.sizeBits) :
    w.sizeAdd a b = a + b :=
  Nat.mod_eq_of_lt h

theorem FenceTime.Snapshot.State.ofRaw_unrecognised (raw : Nat)
    (h0 : raw ≠ 0) (h1 : raw ≠ 1) (h2 : raw ≠ 2) :
    FenceTime.Snapshot.State.ofRaw raw = FenceTime.Snapshot.State.unrecognised raw := by
  match raw, h0, h1, h2 with
  | 0, h0, _, _ => exact absurd rfl h0
  | 1, _, h1, _ => exact absurd rfl h1
  | 2, _, _, h2 => exact absurd rfl h2
  | n + 3, _, _, _ => rfl

namespace FenceTime

theorem Snapshot.flatten_EMPTY (w : Wire) (s : Snapshot) (cur : FlattenCursor)
    (hs : s.state = Snapshot.State.EMPTY) :
    Snapshot.flatten w s cur =
      some (if cur.size < w.tagWidth then (NO_MEMORY, cur)
        else (NO_ERROR, FlattenableUtils.write w cur (encodeLE w.tagWidth 0))) := by
  simp only [Snapshot.flatten, Snapshot.getFlattenedSize, hs, Snapshot.State.toRaw]
  split_ifs <;> rfl

theorem Snapshot.flatten_SIGNAL_TIME (w : Wire) (s : Snapshot) (cur : FlattenCursor)
    (hs : s.state = Snapshot.State.SIGNAL_TIME) :
    Snapshot.flatten w s cur =
      some (if cur.size < w.sizeAdd w.tagWidth 8 then (NO_MEMORY, cur)
        else (NO_ERROR,
          FlattenableUtils.write w (FlattenableUtils.write w cur (encodeLE w.tagWidth 2))
            (encodeInt64 s.signalTime))) := by
  simp only [Snapshot.flatten, Snapshot.getFlattenedSize, hs, Snapshot.State.toRaw]
  split_ifs <;> rfl

theorem Snapshot.flatten_FENCE (w : Wire) (s : Snapshot) (cur : FlattenCursor) (f : Fence)
    (hs : s.state = Snapshot.State.FENCE) (hf : s.fence = some f) :
    Snapshot.flatten w s cur =
      some (if cur.size < w.sizeAdd w.tagWidth (w.fenceGetFlattenedSize f) then (NO_MEMORY, cur)
        else w.fenceFlatten f (FlattenableUtils.write w cur (encodeLE w.tagWidth 1))) := by
  simp only [Snapshot.flatten, Snapshot.getFlattenedSize, hs, hf, Snapshot.State.toRaw]
  split_ifs <;> rfl

theorem Snapshot.flatten_unrecognised (w : Wire) (s : Snapshot) (cur : FlattenCursor) (raw : Nat)
    (hs : s.state = Snapshot.State.unrecognised raw) :
    Snapshot.flatten w s cur =
      some (NO_ERROR, FlattenableUtils.write w cur (encodeLE w.tagWidth raw)) := by
  simp [Snapshot.flatten, Snapshot.getFlattenedSize, hs, Snapshot.State.toRaw]

theorem write_of_le (w : Wire) (cur : FlattenCursor) (value : List Byte)
    (hcur : cur.size < 2 ^ w.sizeBits) (hle : value.length ≤ cur.size) :
    FlattenableUtils.write w cur value =
      ⟨cur.buffer ++ value, cur.size - value.length, cur.fds, cur.count⟩ := by
  simp [FlattenableUtils.write, Wire.sizeSub_of_le w _ _ hcur hle]

theorem read_of_le (w : Wire) (cur : UnflattenCursor) (n : Nat)
    (hcur : cur.size < 2 ^ w.sizeBits) (hle : n ≤ cur.size) :
    FlattenableUtils.read w cur n =
      (cur.buffer.take n, ⟨cur.buffer.drop n, cur.size - n, cur.fds, cur.count⟩) := by
  simp [FlattenableUtils.read, Wire.sizeSub_of_le w _ _ hcur hle]

/-- What `unflatten` does once the tag fits: the tag is read, then the payload
according to the tag. -/
theorem Snapshot.unflatten_of_le (w : Wire) (self : Snapshot) (cur : UnflattenCursor)
    (hcur : cur.size < 2 ^ w.sizeBits) (hle : w.tagWidth ≤ cur.size) :
    Snapshot.unflatten w self cur =
      (match Snapshot.State.ofRaw (decodeLE (cur.buffer.take w.tagWidth)) with
      | Snapshot.State.EMPTY =>
        (NO_ERROR, { self with state := Snapshot.State.EMPTY },
          ⟨cur.buffer.drop w.tagWidth, cur.size - w.tagWidth, cur.fds, cur.count⟩)
      | Snapshot.State.FENCE =>
        ((w.fenceUnflatten
            ⟨cur.buffer.drop w.tagWidth, cur.size - w.tagWidth, cur.fds, cur.count⟩).1,
          { self with
            state := Snapshot.State.FENCE
            fence := some (w.fenceUnflatten
              ⟨cur.buffer.drop w.tagWidth, cur.size - w.tagWidth, cur.fds, cur.count⟩).2.1 },
          (w.fenceUnflatten
            ⟨cur.buffer.drop w.tagWidth, cur.size - w.tagWidth, cur.fds, cur.count⟩).2.2)
      | Snapshot.State.SIGNAL_TIME =>
        if cur.size - w.tagWidth < 8 then
          (NO_MEMORY, { self with state := Snapshot.State.SIGNAL_TIME },
            ⟨cur.buffer.drop w.tagWidth, cur.size - w.tagWidth, cur.fds, cur.count⟩)
        else
          (NO_ERROR,
            { self with
              state := Snapshot.State.SIGNAL_TIME
              signalTime := decodeInt64 ((cur.buffer.drop w.tagWidth).take 8) },
            ⟨(cur.buffer.drop w.tagWidth).drop 8, cur.size - w.tagWidth - 8, cur.fds,
              cur.count⟩)
      | Snapshot.State.unrecognised raw =>
        (NO_ERROR, { self with state := Snapshot.State.unrecognised raw },
          ⟨cur.buffer.drop w.tagWidth, cur.size - w.tagWidth, cur.fds, cur.count⟩)) := by
  have hnot : ¬ cur.size < w.tagWidth := Nat.not_lt.mpr hle
  simp only [Snapshot.unflatten, if_neg hnot, read_of_le w cur w.tagWidth hcur hle]
  cases htag : Snapshot.State.ofRaw (decodeLE (cur.buffer.take w.tagWidth)) with
  | EMPTY => rfl
  | FENCE => rfl
  | unrecognised raw => rfl
  | SIGNAL_TIME =>
    simp only []
    by_cases h8 : cur.size - w.tagWidth < 8
    · simp only [if_pos h8]
    · simp only [if_neg h8]
      have hcur1 : cur.size - w.tagWidth < 2 ^ w.sizeBits := lt_of_le_of_lt (Nat.sub_le _ _) hcur
      rw [read_of_le w ⟨cur.buffer.drop w.tagWidth, cur.size - w.tagWidth, cur.fds, cur.count⟩ 8
        hcur1 (Nat.not_lt.mp h8)]

end FenceTime

/-! ## Claims on `applyTrustedSnapshot` and the Snapshot wire format -/

namespace FenceTime

/-- C11. `applyTrustedSnapshot` is idempotent: for every FenceTime state and every
snapshot `s` of kind SIGNAL_TIME, applying `s` to the state reached by applying
`s` gives that same state again. -/
theorem C11_apply_idempotent (env : Env) (self : FenceTime) (s : Snapshot)
    (hkind : s.state = Snapshot.State.SIGNAL_TIME) :
    (applyTrustedSnapshot env (applyTrustedSnapshot env self s).1 s).1 =
      (applyTrustedSnapshot env self s).1 := by
  by_cases hself : self.mSignalTime = env.SIGNAL_TIME_PENDING
  · by_cases hs : s.signalTime = env.SIGNAL_TIME_PENDING
    · simp [applyTrustedSnapshot, hkind, hself, hs]
    · simp [applyTrustedSnapshot, hkind, hself, hs]
  · simp [applyTrustedSnapshot, hkind, hself]

/-- Witness of C11: the trusted time 777 applied twice to the pending FenceTime
holding Fence 3. -/
theorem C11_apply_idempotent_witness :
    (Snapshot.ofSignalTime Env.reference 777).state = Snapshot.State.SIGNAL_TIME ∧
    (applyTrustedSnapshot Env.reference
        (applyTrustedSnapshot Env.reference samplePending
          (Snapshot.ofSignalTime Env.reference 777)).1
        (Snapshot.ofSignalTime Env.reference 777)).1 =
      (applyTrustedSnapshot Env.reference samplePending
        (Snapshot.ofSignalTime Env.reference 777)).1 :=
  ⟨rfl, C11_apply_idempotent Env.reference samplePending
    (Snapshot.ofSignalTime Env.reference 777) rfl⟩

/-- C12 (round trip). Let the widths fit and the `size` values be `size_t` values.
EMPTY: flattening into at least `getFlattenedSize()` bytes returns NO_ERROR and
writes the tag bytes; unflattening those bytes (followed by anything) into any
Snapshot returns NO_ERROR, gives kind EMPTY and consumes exactly the bytes
written; the fd count is 0.
SIGNAL_TIME, for any 64-bit `signalTime`: the same, and the Snapshot read back has
kind SIGNAL_TIME and the same `signalTime`; the fd count is 0.
FENCE with a non-null Fence `f`: if the Fence's own `flatten`, run after the tag,
returns NO_ERROR having appended `fbytes`, and the Fence's own `unflatten`, run on
`fbytes` followed by `rest`, returns NO_ERROR with a Fence `g` and leaves `rest`,
then flattening returns NO_ERROR with the tag followed by `fbytes`, unflattening
those bytes returns NO_ERROR with kind FENCE and fence `g` and leaves `rest`, and
the fd count is the Fence's own. -/
theorem C12_round_trip (w : Wire) (s target : Snapshot) (cur : FlattenCursor)
    (rest : List Byte) (inSize : Nat) (inFds : List Int) (inCount : Nat)
    (hw : w.sane) (hcur : cur.size < 2 ^ w.sizeBits) (hin : inSize < 2 ^ w.sizeBits) :
    (s.state = Snapshot.State.EMPTY →
      Snapshot.getFlattenedSize w s = some w.tagWidth ∧
      Snapshot.getFdCount w s = some 0 ∧
      (w.tagWidth ≤ cur.size →
        Snapshot.flatten w s cur =
          some (NO_ERROR,
            ⟨cur.buffer ++ encodeLE w.tagWidth 0, cur.size - w.tagWidth, cur.fds, cur.count⟩)) ∧
      (w.tagWidth ≤ inSize →
        Snapshot.unflatten w target ⟨encodeLE w.tagWidth 0 ++ rest, inSize, inFds, inCount⟩ =
          (NO_ERROR, { target with state := Snapshot.State.EMPTY },
            ⟨rest, inSize - w.tagWidth, inFds, inCount⟩))) ∧
    (s.state = Snapshot.State.SIGNAL_TIME → inInt64 s.signalTime →
      Snapshot.getFlattenedSize w s = some (w.tagWidth + 8) ∧
      Snapshot.getFdCount w s = some 0 ∧
      (w.tagWidth + 8 ≤ cur.size →
        Snapshot.flatten w s cur =
          some (NO_ERROR,
            ⟨cur.buffer ++ (encodeLE w.tagWidth 2 ++ encodeInt64 s.signalTime),
              cur.size - (w.tagWidth + 8), cur.fds, cur.count⟩)) ∧
      (w.tagWidth + 8 ≤ inSize →
        Snapshot.unflatten w target
            ⟨(encodeLE w.tagWidth 2 ++ encodeInt64 s.signalTime) ++ rest, inSize, inFds,
              inCount⟩ =
          (NO_ERROR,
            { target with state := Snapshot.State.SIGNAL_TIME, signalTime := s.signalTime },
            ⟨rest, inSize - (w.tagWidth + 8), inFds, inCount⟩))) ∧
    (∀ (f g : Fence) (fbytes : List Byte) (cur2 : FlattenCursor) (in2 : UnflattenCursor),
      s.state = Snapshot.State.FENCE → s.fence = some f →
      w.tagWidth + w.fenceGetFlattenedSize f < 2 ^ w.sizeBits →
      w.tagWidth + w.fenceGetFlattenedSize f ≤ cur.size →
      w.tagWidth ≤ inSize →
      w.fenceFlatten f
          ⟨cur.buffer ++ encodeLE w.tagWidth 1, cur.size - w.tagWidth, cur.fds, cur.count⟩ =
        (NO_ERROR, cur2) →
      cur2.buffer = cur.buffer ++ encodeLE w.tagWidth 1 ++ fbytes →
      w.fenceUnflatten ⟨fbytes ++ rest, inSize - w.tagWidth, inFds, inCount⟩ =
        (NO_ERROR, g, in2) →
      in2.buffer = rest →
      Snapshot.getFlattenedSize w s = some (w.tagWidth + w.fenceGetFlattenedSize f) ∧
      Snapshot.getFdCount w s = some (w.fenceGetFdCount f) ∧
      Snapshot.flatten w s cur = some (NO_ERROR, cur2) ∧
      Snapshot.unflatten w target
          ⟨(encodeLE w.tagWidth 1 ++ fbytes) ++ rest, inSize, inFds, inCount⟩ =
        (NO_ERROR, { target with state := Snapshot.State.FENCE, fence := some g }, in2) ∧
      in2.buffer = rest) := by
  obtain ⟨hpos, hfit⟩ := hw
  have hlen : ∀ v, (encodeLE w.tagWidth v).length = w.tagWidth := encodeLE_length w.tagWidth
  have hadd8 : w.sizeAdd w.tagWidth 8 = w.tagWidth + 8 := w.sizeAdd_of_lt _ _ hfit
  have htake : ∀ v (tail : List Byte),
      ((encodeLE w.tagWidth v ++ tail).take w.tagWidth) = encodeLE w.tagWidth v :=
    fun v tail => List.take_left' (hlen v)
  have hdrop : ∀ v (tail : List Byte),
      ((encodeLE w.tagWidth v ++ tail).drop w.tagWidth) = tail :=
    fun v tail => List.drop_left' (hlen v)
  refine ⟨?_, ?_, ?_⟩
  · intro hs
    refine ⟨by simp [Snapshot.getFlattenedSize, hs], by simp [Snapshot.getFdCount, hs], ?_, ?_⟩
    · intro hle
      rw [Snapshot.flatten_EMPTY w s cur hs, if_neg (Nat.not_lt.mpr hle),
        write_of_le w cur _ hcur (by rw [hlen]; exact hle), hlen]
    · intro hle
      rw [Snapshot.unflatten_of_le w target _ hin hle]
      simp only [htake, hdrop, decodeLE_encodeLE_small w.tagWidth 0 hpos (by norm_num),
        Snapshot.State.ofRaw]
  · intro hs hrange
    refine ⟨by simp [Snapshot.getFlattenedSize, hs, hadd8], by simp [Snapshot.getFdCount, hs],
      ?_, ?_⟩
    · intro hle
      have hle1 : w.tagWidth ≤ cur.size := by omega
      rw [Snapshot.flatten_SIGNAL_TIME w s cur hs, hadd8, if_neg (Nat.not_lt.mpr hle),
        write_of_le w cur _ hcur (by rw [hlen]; exact hle1), hlen]
      rw [write_of_le w _ _ (by show cur.size - w.tagWidth < _; omega)
        (by rw [encodeInt64_length]; show 8 ≤ cur.size - w.tagWidth; omega)]
      simp only [encodeInt64_length, List.append_assoc, Nat.sub_sub]
    · intro hle
      have hle1 : w.tagWidth ≤ inSize := by omega
      rw [Snapshot.unflatten_of_le w target _ hin hle1]
      simp only [List.append_assoc, htake, hdrop,
        decodeLE_encodeLE_small w.tagWidth 2 hpos (by norm_num), Snapshot.State.ofRaw]
      have h8 : ¬ inSize - w.tagWidth < 8 := by omega
      rw [if_neg h8, List.take_left' (encodeInt64_length _),
        List.drop_left' (encodeInt64_length _),
        decodeInt64_encodeInt64 s.signalTime hrange.1 hrange.2, Nat.sub_sub]
  · intro f g fbytes cur2 in2 hs hf hnowrap hle hin1 hflat hbuf hunflat hrest
    have haddf : w.sizeAdd w.tagWidth (w.fenceGetFlattenedSize f) =
        w.tagWidth + w.fenceGetFlattenedSize f := w.sizeAdd_of_lt _ _ hnowrap
    have hle1 : w.tagWidth ≤ cur.size := by omega
    refine ⟨by simp [Snapshot.getFlattenedSize, hs, hf, haddf],
      by simp [Snapshot.getFdCount, hs, hf], ?_, ?_, hrest⟩
    · rw [Snapshot.flatten_FENCE w s cur f hs hf, haddf, if_neg (Nat.not_lt.mpr hle),
        write_of_le w cur _ hcur (by rw [hlen]; exact hle1), hlen, hflat]
    · rw [Snapshot.unflatten_of_le w target _ hin hin1]
      simp only [List.append_assoc, htake, hdrop,
        decodeLE_encodeLE_small w.tagWidth 1 hpos (by norm_num), Snapshot.State.ofRaw, hunflat]

end FenceTime

namespace FenceTime

/-- Witness of C12: the SIGNAL_TIME snapshot carrying -2 and the FENCE snapshot of
Fence 5, each flattened into a buffer of exactly its size and read back into a
default Snapshot. -/
theorem C12_round_trip_witness :
    Wire.reference.sane ∧
    inInt64 (-2) ∧
    Snapshot.flatten Wire.reference (Snapshot.ofSignalTime Env.reference (-2)) ⟨[], 12, [], 0⟩ =
      some (NO_ERROR, ⟨[2, 0, 0, 0, 254, 255, 255, 255, 255, 255, 255, 255], 0, [], 0⟩) ∧
    Snapshot.unflatten Wire.reference Env.reference.snapshotDefault
        ⟨[2, 0, 0, 0, 254, 255, 255, 255, 255, 255, 255, 255], 12, [], 0⟩ =
      (NO_ERROR, Snapshot.ofSignalTime Env.reference (-2), ⟨[], 0, [], 0⟩) ∧
    Snapshot.flatten Wire.reference (Snapshot.ofFence Env.reference (some ⟨5⟩)) ⟨[], 8, [], 1⟩ =
      some (NO_ERROR, ⟨[1, 0, 0, 0, 5, 0, 0, 0], 0, [5], 0⟩) ∧
    Snapshot.unflatten Wire.reference Env.reference.snapshotDefault
        ⟨[1, 0, 0, 0, 5, 0, 0, 0], 8, [5], 1⟩ =
      (NO_ERROR, Snapshot.ofFence Env.reference (some ⟨5⟩), ⟨[], 0, [], 0⟩) :=
  have h := C12_round_trip Wire.reference (Snapshot.ofSignalTime Env.reference (-2))
    Env.reference.snapshotDefault ⟨[], 12, [], 0⟩ [] 12 [] 0 (by decide) (by decide) (by decide)
  have hf := (C12_round_trip Wire.reference (Snapshot.ofFence Env.reference (some ⟨5⟩))
    Env.reference.snapshotDefault ⟨[], 8, [], 1⟩ [] 8 [5] 1 (by decide) (by decide)
    (by decide)).2.2 ⟨5⟩ ⟨5⟩ [5, 0, 0, 0] ⟨[1, 0, 0, 0, 5, 0, 0, 0], 0, [5], 0⟩ ⟨[], 0, [], 0⟩
    rfl rfl (by decide) (by decide) (by decide) (by decide) (by decide) (by decide) rfl
  ⟨by decide, by decide, (h.2.1 rfl (by decide)).2.2.1 (by decide),
    (h.2.1 rfl (by decide)).2.2.2 (by decide), hf.2.2.1, hf.2.2.2.1⟩

/-- C13. Let `getFlattenedSize()` of a Snapshot return `n` (it returns a value for
kind EMPTY, for kind SIGNAL_TIME and for kind FENCE with a non-null Fence). For
every destination cursor, `flatten` returns NO_MEMORY whenever `size < n`, and
then the cursor (buffer, size, fds, count) is unchanged, so nothing was written;
for kinds EMPTY and SIGNAL_TIME it returns NO_ERROR whenever `size >= n`. -/
theorem C13_flatten_no_memory (w : Wire) (s : Snapshot) (cur : FlattenCursor) (n : Nat)
    (hflat : Snapshot.getFlattenedSize w s = some n) :
    (cur.size < n → Snapshot.flatten w s cur = some (NO_MEMORY, cur)) ∧
    (s.state = Snapshot.State.EMPTY ∨ s.state = Snapshot.State.SIGNAL_TIME → n ≤ cur.size →
      ∃ cur1, Snapshot.flatten w s cur = some (NO_ERROR, cur1)) := by
  refine ⟨?_, ?_⟩
  · intro hlt
    simp only [Snapshot.flatten, hflat, if_pos hlt]
  · intro hkind hle
    rcases hkind with hs | hs
    · rw [Snapshot.flatten_EMPTY w s cur hs]
      have hn : n = w.tagWidth := by
        simp [Snapshot.getFlattenedSize, hs] at hflat
        exact hflat.symm
      rw [if_neg (by omega)]
      exact ⟨_, rfl⟩
    · rw [Snapshot.flatten_SIGNAL_TIME w s cur hs]
      have hn : n = w.sizeAdd w.tagWidth 8 := by
        simp [Snapshot.getFlattenedSize, hs] at hflat
        exact hflat.symm
      rw [if_neg (by omega)]
      exact ⟨_, rfl⟩

/-- Witness of C13: the SIGNAL_TIME snapshot carrying -2 needs 12 bytes; with 11 the
call fails and the cursor is untouched, with 12 it succeeds. -/
theorem C13_flatten_no_memory_witness :
    Snapshot.getFlattenedSize Wire.reference (Snapshot.ofSignalTime Env.reference (-2)) =
      some 12 ∧
    Snapshot.flatten Wire.reference (Snapshot.ofSignalTime Env.reference (-2)) ⟨[], 11, [], 0⟩ =
      some (NO_MEMORY, ⟨[], 11, [], 0⟩) ∧
    ∃ cur1, Snapshot.flatten Wire.reference (Snapshot.ofSignalTime Env.reference (-2))
      ⟨[], 12, [], 0⟩ = some (NO_ERROR, cur1) :=
  ⟨rfl,
    (C13_flatten_no_memory Wire.reference (Snapshot.ofSignalTime Env.reference (-2))
      ⟨[], 11, [], 0⟩ 12 rfl).1 (by decide),
    (C13_flatten_no_memory Wire.reference (Snapshot.ofSignalTime Env.reference (-2))
      ⟨[], 12, [], 0⟩ 12 rfl).2 (Or.inr rfl) (by decide)⟩

/-- C14. Let `size` be a `size_t` value and let `tag` be the tag decoded from the
first tag-width bytes of the input. `unflatten` returns NO_MEMORY if `size` is
below the tag width; it returns NO_MEMORY if `tag` is SIGNAL_TIME and fewer than 8
bytes remain after the tag; it returns NO_ERROR if `tag` is EMPTY and `size` is at
least the tag width, and if `tag` is SIGNAL_TIME and `size` is at least the tag
width plus 8. -/
theorem C14_unflatten_status (w : Wire) (self : Snapshot) (cur : UnflattenCursor)
    (hcur : cur.size < 2 ^ w.sizeBits) :
    (cur.size < w.tagWidth → (Snapshot.unflatten w self cur).1 = NO_MEMORY) ∧
    (w.tagWidth ≤ cur.size →
      Snapshot.State.ofRaw (decodeLE (cur.buffer.take w.tagWidth)) = Snapshot.State.SIGNAL_TIME →
      cur.size - w.tagWidth < 8 → (Snapshot.unflatten w self cur).1 = NO_MEMORY) ∧
    (w.tagWidth ≤ cur.size →
      Snapshot.State.ofRaw (decodeLE (cur.buffer.take w.tagWidth)) = Snapshot.State.EMPTY →
      (Snapshot.unflatten w self cur).1 = NO_ERROR) ∧
    (w.tagWidth + 8 ≤ cur.size →
      Snapshot.State.ofRaw (decodeLE (cur.buffer.take w.tagWidth)) = Snapshot.State.SIGNAL_TIME →
      (Snapshot.unflatten w self cur).1 = NO_ERROR) := by
  refine ⟨?_, ?_, ?_, ?_⟩
  · intro hlt
    simp only [Snapshot.unflatten, if_pos hlt]
  · intro hle htag h8
    rw [Snapshot.unflatten_of_le w self cur hcur hle, htag]
    simp only [if_pos h8]
  · intro hle htag
    rw [Snapshot.unflatten_of_le w self cur hcur hle, htag]
  · intro hle htag
    rw [Snapshot.unflatten_of_le w self cur hcur (by omega), htag]
    have h8 : ¬ cur.size - w.tagWidth < 8 := by omega
    simp only [if_neg h8]

/-- Witness of C14: three bytes are too few for the tag; a SIGNAL_TIME tag followed
by seven bytes is too short; a SIGNAL_TIME tag followed by eight bytes is read. -/
theorem C14_unflatten_status_witness :
    (Snapshot.unflatten Wire.reference Env.reference.snapshotDefault
      ⟨[2, 0, 0], 3, [], 0⟩).1 = NO_MEMORY ∧
    (Snapshot.unflatten Wire.reference Env.reference.snapshotDefault
      ⟨[2, 0, 0, 0, 1, 1, 1, 1, 1, 1, 1], 11, [], 0⟩).1 = NO_MEMORY ∧
    (Snapshot.unflatten Wire.reference Env.reference.snapshotDefault
      ⟨[2, 0, 0, 0, 1, 1, 1, 1, 1, 1, 1, 1], 12, [], 0⟩).1 = NO_ERROR :=
  ⟨(C14_unflatten_status Wire.reference Env.reference.snapshotDefault ⟨[2, 0, 0], 3, [], 0⟩
      (by decide)).1 (by decide),
    (C14_unflatten_status Wire.reference Env.reference.snapshotDefault
      ⟨[2, 0, 0, 0, 1, 1, 1, 1, 1, 1, 1], 11, [], 0⟩ (by decide)).2.1 (by decide) rfl
      (by decide),
    (C14_unflatten_status Wire.reference Env.reference.snapshotDefault
      ⟨[2, 0, 0, 0, 1, 1, 1, 1, 1, 1, 1, 1], 12, [], 0⟩ (by decide)).2.2.2 (by decide) rfl⟩

/-- C15 (wire layout). Let the widths fit and `size` be a `size_t` value.
EMPTY: `getFlattenedSize()` is the tag width, and a successful `flatten` appends
exactly the tag bytes, reduces `size` by the tag width and leaves fds and count.
SIGNAL_TIME: `getFlattenedSize()` is the tag width plus 8, and a successful
`flatten` appends exactly the tag bytes followed by the 8 bytes of `signalTime`,
reduces `size` by the tag width plus 8 and leaves fds and count.
FENCE with a non-null Fence `f` whose flattened size added to the tag width is a
`size_t` value: `getFlattenedSize()` is the tag width plus the Fence's flattened
size, and when `size` is at least that, `flatten` is the Fence's own `flatten` run
on the cursor in which exactly the tag bytes have been appended. -/
theorem C15_wire_layout (w : Wire) (s : Snapshot) (cur : FlattenCursor)
    (hw : w.sane) (hcur : cur.size < 2 ^ w.sizeBits) :
    (s.state = Snapshot.State.EMPTY →
      Snapshot.getFlattenedSize w s = some w.tagWidth ∧
      (encodeLE w.tagWidth Snapshot.State.EMPTY.toRaw).length = w.tagWidth ∧
      (w.tagWidth ≤ cur.size →
        Snapshot.flatten w s cur =
          some (NO_ERROR,
            ⟨cur.buffer ++ encodeLE w.tagWidth Snapshot.State.EMPTY.toRaw,
              cur.size - w.tagWidth, cur.fds, cur.count⟩))) ∧
    (s.state = Snapshot.State.SIGNAL_TIME →
      Snapshot.getFlattenedSize w s = some (w.tagWidth + 8) ∧
      (encodeLE w.tagWidth Snapshot.State.SIGNAL_TIME.toRaw ++
        encodeInt64 s.signalTime).length = w.tagWidth + 8 ∧
      (w.tagWidth + 8 ≤ cur.size →
        Snapshot.flatten w s cur =
          some (NO_ERROR,
            ⟨cur.buffer ++ (encodeLE w.tagWidth Snapshot.State.SIGNAL_TIME.toRaw ++
                encodeInt64 s.signalTime),
              cur.size - (w.tagWidth + 8), cur.fds, cur.count⟩))) ∧
    (∀ f : Fence, s.state = Snapshot.State.FENCE → s.fence = some f →
      w.tagWidth + w.fenceGetFlattenedSize f < 2 ^ w.sizeBits →
      Snapshot.getFlattenedSize w s = some (w.tagWidth + w.fenceGetFlattenedSize f) ∧
      (w.tagWidth + w.fenceGetFlattenedSize f ≤ cur.size →
        Snapshot.flatten w s cur =
          some (w.fenceFlatten f
            ⟨cur.buffer ++ encodeLE w.tagWidth Snapshot.State.FENCE.toRaw,
              cur.size - w.tagWidth, cur.fds, cur.count⟩))) := by
  obtain ⟨hpos, hfit⟩ := hw
  have hlen : ∀ v, (encodeLE w.tagWidth v).length = w.tagWidth := encodeLE_length w.tagWidth
  have hadd8 : w.sizeAdd w.tagWidth 8 = w.tagWidth + 8 := w.sizeAdd_of_lt _ _ hfit
  refine ⟨?_, ?_, ?_⟩
  · intro hs
    refine ⟨by simp [Snapshot.getFlattenedSize, hs], hlen _, ?_⟩
    intro hle
    rw [Snapshot.flatten_EMPTY w s cur hs, if_neg (Nat.not_lt.mpr hle),
      write_of_le w cur _ hcur (by rw [hlen]; exact hle), hlen]
    rfl
  · intro hs
    refine ⟨by simp [Snapshot.getFlattenedSize, hs, hadd8],
      by rw [List.length_append, hlen, encodeInt64_length], ?_⟩
    intro hle
    have hle1 : w.tagWidth ≤ cur.size := by omega
    rw [Snapshot.flatten_SIGNAL_TIME w s cur hs, hadd8, if_neg (Nat.not_lt.mpr hle),
      write_of_le w cur _ hcur (by rw [hlen]; exact hle1), hlen]
    rw [write_of_le w _ _ (by show cur.size - w.tagWidth < _; omega)
      (by rw [encodeInt64_length]; show 8 ≤ cur.size - w.tagWidth; omega)]
    simp only [encodeInt64_length, List.append_assoc, Nat.sub_sub, Snapshot.State.toRaw]
  · intro f hs hf hnowrap
    have haddf : w.sizeAdd w.tagWidth (w.fenceGetFlattenedSize f) =
        w.tagWidth + w.fenceGetFlattenedSize f := w.sizeAdd_of_lt _ _ hnowrap
    refine ⟨by simp [Snapshot.getFlattenedSize, hs, hf, haddf], ?_⟩
    intro hle
    have hle1 : w.tagWidth ≤ cur.size := by omega
    rw [Snapshot.flatten_FENCE w s cur f hs hf, haddf, if_neg (Nat.not_lt.mpr hle),
      write_of_le w cur _ hcur (by rw [hlen]; exact hle1), hlen]
    rfl

/-- Witness of C15: the SIGNAL_TIME snapshot carrying -2 flattened into 20 bytes of
room, after one byte already stored and with two descriptors stored. -/
theorem C15_wire_layout_witness :
    Wire.reference.sane ∧
    Snapshot.getFlattenedSize Wire.reference (Snapshot.ofSignalTime Env.reference (-2)) =
      some 12 ∧
    Snapshot.flatten Wire.reference (Snapshot.ofSignalTime Env.reference (-2))
        ⟨[9], 20, [4, 6], 3⟩ =
      some (NO_ERROR,
        ⟨[9, 2, 0, 0, 0, 254, 255, 255, 255, 255, 255, 255, 255], 8, [4, 6], 3⟩) :=
  have h := (C15_wire_layout Wire.reference (Snapshot.ofSignalTime Env.reference (-2))
    ⟨[9], 20, [4, 6], 3⟩ (by decide) (by decide)).2.1 rfl
  ⟨by decide, h.1, h.2.2 (by decide)⟩

/-- C16. Let `raw` be a tag value that is none of EMPTY, FENCE, SIGNAL_TIME.
`getFlattenedSize()` of a Snapshot carrying that tag returns 0. `unflatten` of an
input of at least tag-width bytes (`size` a `size_t` value) whose first tag-width
bytes decode to `raw` returns NO_ERROR, stores the tag, consumes exactly the tag
bytes, and leaves `signalTime`, `fence`, fds and count as they were. -/
theorem C16_unrecognised_tag (w : Wire) (self : Snapshot) (cur : UnflattenCursor) (raw : Nat)
    (hraw : raw ≠ Snapshot.State.EMPTY.toRaw ∧ raw ≠ Snapshot.State.FENCE.toRaw ∧
      raw ≠ Snapshot.State.SIGNAL_TIME.toRaw)
    (hcur : cur.size < 2 ^ w.sizeBits) (hle : w.tagWidth ≤ cur.size)
    (htag : decodeLE (cur.buffer.take w.tagWidth) = raw) :
    (∀ (fence : Option Fence) (signalTime : nsecs_t),
      Snapshot.getFlattenedSize w ⟨Snapshot.State.ofRaw raw, fence, signalTime⟩ = some 0) ∧
    Snapshot.unflatten w self cur =
      (NO_ERROR, { self with state := Snapshot.State.ofRaw raw },
        ⟨cur.buffer.drop w.tagWidth, cur.size - w.tagWidth, cur.fds, cur.count⟩) ∧
    Snapshot.State.ofRaw raw ≠ Snapshot.State.EMPTY ∧
    Snapshot.State.ofRaw raw ≠ Snapshot.State.FENCE ∧
    Snapshot.State.ofRaw raw ≠ Snapshot.State.SIGNAL_TIME := by
  have hun : Snapshot.State.ofRaw raw = Snapshot.State.unrecognised raw :=
    Snapshot.State.ofRaw_unrecognised raw hraw.1 hraw.2.1 hraw.2.2
  refine ⟨?_, ?_, ?_, ?_, ?_⟩
  · intro fence signalTime
    simp [Snapshot.getFlattenedSize, hun]
  · rw [Snapshot.unflatten_of_le w self cur hcur hle, htag, hun]
  · rw [hun]; exact fun h => by cases h
  · rw [hun]; exact fun h => by cases h
  · rw [hun]; exact fun h => by cases h

/-- Witness of C16: the tag value 7 followed by two further bytes, read into the
SIGNAL_TIME snapshot carrying 55. -/
theorem C16_unrecognised_tag_witness :
    Snapshot.getFlattenedSize Wire.reference ⟨Snapshot.State.ofRaw 7, none, 55⟩ = some 0 ∧
    Snapshot.unflatten Wire.reference (Snapshot.ofSignalTime Env.reference 55)
        ⟨[7, 0, 0, 0, 1, 2], 6, [4], 1⟩ =
      (NO_ERROR, { Snapshot.ofSignalTime Env.reference 55 with state := Snapshot.State.ofRaw 7 },
        ⟨[1, 2], 2, [4], 1⟩) :=
  have h := C16_unrecognised_tag Wire.reference (Snapshot.ofSignalTime Env.reference 55)
    ⟨[7, 0, 0, 0, 1, 2], 6, [4], 1⟩ 7 (by decide) (by decide) (by decide) (by decide)
  ⟨h.1 none 55, h.2.1⟩

end FenceTime

/-! ## FenceTimeline lemmas -/

namespace FenceTime

theorem getSignalTime_ret_pending (env : Env) (fenceAnswer : Fence → nsecs_t) (self : FenceTime)
    (h : (getSignalTime env fenceAnswer self).ret = env.SIGNAL_TIME_PENDING) :
    (getSignalTime env fenceAnswer self).self = self ∧
      self.mSignalTime = env.SIGNAL_TIME_PENDING := by
  by_cases hres : self.mSignalTime = env.SIGNAL_TIME_PENDING
  · refine ⟨?_, hres⟩
    cases hf : self.mFence with
    | none => simp [getSignalTime, hres, hf]
    | some fence =>
      by_cases hans : fenceAnswer fence = env.SIGNAL_TIME_PENDING
      · simp [getSignalTime, hres, hf, hans]
      · simp [getSignalTime, hres, hf, hans] at h
  · rw [getSignalTime_of_resolved env fenceAnswer self hres] at h
    exact absurd h hres

theorem getSignalTime_keeps_resolved (env : Env) (fenceAnswer : Fence → nsecs_t)
    (self : FenceTime) (h : self.mSignalTime ≠ env.SIGNAL_TIME_PENDING) :
    (getSignalTime env fenceAnswer self).self.mSignalTime ≠ env.SIGNAL_TIME_PENDING := by
  rw [getSignalTime_of_resolved env fenceAnswer self h]
  exact h

end FenceTime

namespace FenceTimeline

theorem updateLoop_cons_none (env : Env) (front : Nat) (rest : List Nat)
    (answers : Nat → Fence → nsecs_t) (heap : Heap) (h : heap front = none) :
    updateLoop env (front :: rest) answers heap = updateLoop env rest answers heap := by
  simp [updateLoop, h]

theorem updateLoop_cons_resolved (env : Env) (front : Nat) (rest : List Nat)
    (answers : Nat → Fence → nsecs_t) (heap : Heap) (ft : FenceTime) (h : heap front = some ft)
    (hret : (FenceTime.getSignalTime env (answers 0) ft).ret ≠ env.SIGNAL_TIME_PENDING) :
    updateLoop env (front :: rest) answers heap =
      { updateLoop env rest (fun n => answers (n + 1))
          (Function.update heap front
            (some (FenceTime.getSignalTime env (answers 0) ft).self)) with
        called := front :: (updateLoop env rest (fun n => answers (n + 1))
          (Function.update heap front
            (some (FenceTime.getSignalTime env (answers 0) ft).self))).called
        polled := (FenceTime.getSignalTime env (answers 0) ft).polled ++
          (updateLoop env rest (fun n => answers (n + 1))
            (Function.update heap front
              (some (FenceTime.getSignalTime env (answers 0) ft).self))).polled } := by
  simp [updateLoop, h, hret]

theorem updateLoop_cons_pending (env : Env) (front : Nat) (rest : List Nat)
    (answers : Nat → Fence → nsecs_t) (heap : Heap) (ft : FenceTime) (h : heap front = some ft)
    (hret : (FenceTime.getSignalTime env (answers 0) ft).ret = env.SIGNAL_TIME_PENDING) :
    updateLoop env (front :: rest) answers heap =
      ⟨heap, ⟨front :: rest⟩, [front], (FenceTime.getSignalTime env (answers 0) ft).polled⟩ := by
  have hself := (FenceTime.getSignalTime_ret_pending env (answers 0) ft hret).1
  simp only [updateLoop, h, hret, ne_eq, not_true_eq_false, if_false, hself]
  rw [← h, Function.update_eq_self]

/-- The queue after the sweep is a suffix of the old queue. -/
theorem updateLoop_suffix (env : Env) (q : List Nat) (answers : Nat → Fence → nsecs_t)
    (heap : Heap) :
    ∃ k, k ≤ q.length ∧ (updateLoop env q answers heap).self.mQueue = q.drop k ∧
      (∀ b, q[k]? = some b → ∃ ft, (updateLoop env q answers heap).heap b = some ft ∧
        ft.mSignalTime = env.SIGNAL_TIME_PENDING) := by
  induction q generalizing answers heap with
  | nil => exact ⟨0, Nat.le_refl _, rfl, by simp⟩
  | cons front rest ih =>
    cases h : heap front with
    | none =>
      rw [updateLoop_cons_none env front rest answers heap h]
      obtain ⟨k, hk, hq, hfront⟩ := ih answers heap
      exact ⟨k + 1, Nat.succ_le_succ hk, by simpa using hq, by simpa using hfront⟩
    | some ft =>
      by_cases hret : (FenceTime.getSignalTime env (answers 0) ft).ret = env.SIGNAL_TIME_PENDING
      · rw [updateLoop_cons_pending env front rest answers heap ft h hret]
        refine ⟨0, Nat.zero_le _, rfl, ?_⟩
        intro b hb
        simp at hb
        subst hb
        exact ⟨ft, h, (FenceTime.getSignalTime_ret_pending env (answers 0) ft hret).2⟩
      · rw [updateLoop_cons_resolved env front rest answers heap ft h hret]
        obtain ⟨k, hk, hq, hfront⟩ := ih (fun n => answers (n + 1))
          (Function.update heap front (some (FenceTime.getSignalTime env (answers 0) ft).self))
        exact ⟨k + 1, Nat.succ_le_succ hk, by simpa using hq, by simpa using hfront⟩

end FenceTimeline

namespace FenceTimeline

/-- With a capacity of at least one the loop of `push` ends, leaving the last
`MAX_ENTRIES - 1` entries of the queue at most. -/
theorem pushLoop_queue (env : Env) (MAX_ENTRIES : Nat) (hmax : 1 ≤ MAX_ENTRIES) (q : List Nat)
    (answers : Nat → Fence → nsecs_t) (heap : Heap) :
    ∃ c, pushLoop env MAX_ENTRIES q answers heap = some c ∧
      c.self.mQueue = q.drop (q.length - (MAX_ENTRIES - 1)) := by
  induction q generalizing answers heap with
  | nil =>
    refine ⟨⟨heap, ⟨[]⟩, [], []⟩, ?_, by simp⟩
    simp only [pushLoop]
    rw [if_neg (by omega)]
  | cons front rest ih =>
    by_cases hfull : MAX_ENTRIES ≤ (front :: rest).length
    · have hdrop : (front :: rest).drop ((front :: rest).length - (MAX_ENTRIES - 1)) =
          rest.drop (rest.length - (MAX_ENTRIES - 1)) := by
        have : (front :: rest).length - (MAX_ENTRIES - 1) =
            (rest.length - (MAX_ENTRIES - 1)) + 1 := by
          simp only [List.length_cons] at hfull ⊢; omega
        rw [this, List.drop_succ_cons]
      cases h : heap front with
      | none =>
        obtain ⟨c, hc, hq⟩ := ih answers heap
        refine ⟨c, ?_, by rw [hdrop]; exact hq⟩
        simp only [pushLoop, if_pos hfull, h]
        exact hc
      | some ft =>
        obtain ⟨c, hc, hq⟩ := ih (fun n => answers (n + 1))
          (Function.update heap front (some (FenceTime.getSignalTime env (answers 0) ft).self))
        refine ⟨{ c with
          called := front :: c.called
          polled := (FenceTime.getSignalTime env (answers 0) ft).polled ++ c.polled }, ?_,
          by rw [hdrop]; exact hq⟩
        simp only [pushLoop, if_pos hfull, h, hc]
    · refine ⟨⟨heap, ⟨front :: rest⟩, [], []⟩, ?_, ?_⟩
      · simp only [pushLoop, if_neg hfull]
      · have : (front :: rest).length - (MAX_ENTRIES - 1) = 0 := by omega
        rw [this]
        rfl

theorem push_queue (env : Env) (MAX_ENTRIES : Nat) (hmax : 1 ≤ MAX_ENTRIES)
    (answers : Nat → Fence → nsecs_t) (heap : Heap) (self : FenceTimeline) (fence : Nat) :
    ∃ c, push env MAX_ENTRIES answers heap self fence = some c ∧
      c.self.mQueue = self.mQueue.drop (self.mQueue.length - (MAX_ENTRIES - 1)) ++ [fence] := by
  obtain ⟨c, hc, hq⟩ := pushLoop_queue env MAX_ENTRIES hmax self.mQueue answers heap
  refine ⟨{ c with self := ⟨c.self.mQueue ++ [fence]⟩ }, ?_, by simp [hq]⟩
  simp only [push, hc]

theorem updateSignalTimes_length_le (env : Env) (answers : Nat → Fence → nsecs_t) (heap : Heap)
    (self : FenceTimeline) :
    (updateSignalTimes env answers heap self).self.mQueue.length ≤ self.mQueue.length := by
  obtain ⟨k, _, hq, _⟩ := updateLoop_suffix env self.mQueue answers heap
  simp only [updateSignalTimes, hq, List.length_drop]
  omega

theorem runOps_length (env : Env) (MAX_ENTRIES : Nat) (hmax : 1 ≤ MAX_ENTRIES)
    (ops : List TimelineOp) (heap : Heap) (self : FenceTimeline)
    (hlen : self.mQueue.length ≤ MAX_ENTRIES) :
    ∃ heap1 self1, runOps env MAX_ENTRIES ops heap self = some (heap1, self1) ∧
      self1.mQueue.length ≤ MAX_ENTRIES ∧
      ((∀ op ∈ ops, TimelineOp.isSweep op = false) →
        self1.mQueue.length =
          min (self.mQueue.length + ops.countP TimelineOp.isPush) MAX_ENTRIES) := by
  induction ops generalizing heap self with
  | nil =>
    exact ⟨heap, self, rfl, hlen, fun _ => by simp [Nat.min_eq_left hlen]⟩
  | cons op ops ih =>
    cases op with
    | push fence answers =>
      obtain ⟨c, hc, hq⟩ := push_queue env MAX_ENTRIES hmax answers heap self fence
      have hclen : c.self.mQueue.length = min (self.mQueue.length + 1) MAX_ENTRIES := by
        rw [hq, List.length_append, List.length_drop]
        simp only [List.length_singleton]
        omega
      have hcle : c.self.mQueue.length ≤ MAX_ENTRIES := by rw [hclen]; exact Nat.min_le_right _ _
      obtain ⟨heap1, self1, hrun, hle, hcount⟩ := ih c.heap c.self hcle
      refine ⟨heap1, self1, ?_, hle, ?_⟩
      · simp only [runOps, hc]
        exact hrun
      · intro hns
        rw [hcount (fun o ho => hns o (List.mem_cons_of_mem _ ho)), hclen]
        simp only [List.countP_cons, TimelineOp.isPush, if_true]
        omega
    | updateSignalTimes answers =>
      have hcle : (updateSignalTimes env answers heap self).self.mQueue.length ≤ MAX_ENTRIES :=
        le_trans (updateSignalTimes_length_le env answers heap self) hlen
      obtain ⟨heap1, self1, hrun, hle, _⟩ := ih _ _ hcle
      refine ⟨heap1, self1, ?_, hle, ?_⟩
      · simp only [runOps]
        exact hrun
      · intro hns
        have := hns (TimelineOp.updateSignalTimes answers) (List.mem_cons_self _ _)
        simp [TimelineOp.isSweep] at this
    | world heap2 =>
      obtain ⟨heap1, self1, hrun, hle, hcount⟩ := ih heap2 self hlen
      refine ⟨heap1, self1, ?_, hle, ?_⟩
      · simp only [runOps]
        exact hrun
      · intro hns
        rw [hcount (fun o ho => hns o (List.mem_cons_of_mem _ ho))]
        simp [List.countP_cons, TimelineOp.isPush]

end FenceTimeline

/-! ## Claims on FenceTimeline -/

namespace FenceTimeline

/-- C17 (capacity). For every `MAX_ENTRIES` of at least 1, every sequence of `push`
and `updateSignalTimes` calls (with anything else happening to the FenceTime
objects in between) run from the empty timeline completes, every `push`
included, and leaves at most `MAX_ENTRIES` entries in the queue. Without a sweep
the queue length is the number of pushes capped at `MAX_ENTRIES`; in particular
after `MAX_ENTRIES + 1` pushes it is exactly `MAX_ENTRIES`. -/
theorem C17_capacity (env : Env) (MAX_ENTRIES : Nat) (ops : List TimelineOp) (heap : Heap)
    (hmax : 1 ≤ MAX_ENTRIES) :
    ∃ heap1 self1, runOps env MAX_ENTRIES ops heap ⟨[]⟩ = some (heap1, self1) ∧
      self1.mQueue.length ≤ MAX_ENTRIES ∧
      ((∀ op ∈ ops, TimelineOp.isSweep op = false) →
        self1.mQueue.length = min (ops.countP TimelineOp.isPush) MAX_ENTRIES) ∧
      ((∀ op ∈ ops, TimelineOp.isSweep op = false) →
        ops.countP TimelineOp.isPush = MAX_ENTRIES + 1 →
        self1.mQueue.length = MAX_ENTRIES) := by
  obtain ⟨heap1, self1, hrun, hle, hcount⟩ :=
    runOps_length env MAX_ENTRIES hmax ops heap ⟨[]⟩ (Nat.zero_le _)
  refine ⟨heap1, self1, hrun, hle, ?_, ?_⟩
  · intro hns
    simpa using hcount hns
  · intro hns hpushes
    have := hcount hns
    simp only [List.length_nil, Nat.zero_add, hpushes] at this
    omega

/-- Witness of C17: capacity 2 and three pushes. -/
theorem C17_capacity_witness :
    ∃ heap1 self1,
      runOps Env.reference 2
        [TimelineOp.push 0 answersPending, TimelineOp.push 1 answersPending,
          TimelineOp.push 2 answersPending] Heap.sample ⟨[]⟩ = some (heap1, self1) ∧
      self1.mQueue.length = 2 :=
  have ⟨heap1, self1, hrun, _, _, hfull⟩ :=
    C17_capacity Env.reference 2
      [TimelineOp.push 0 answersPending, TimelineOp.push 1 answersPending,
        TimelineOp.push 2 answersPending] Heap.sample (by decide)
  ⟨heap1, self1, hrun, hfull (by decide) (by decide)⟩

/-- C18 (FIFO, oldest-first eviction). Let `MAX_ENTRIES` be at least 1 and the queue
`q` (front first) have at most `MAX_ENTRIES` entries. `push(e)` completes and the
queue afterwards is `q ++ [e]` when `q` has fewer than `MAX_ENTRIES` entries, and
`q` without its first entry followed by `e` when it has exactly `MAX_ENTRIES`. -/
theorem C18_push_fifo (env : Env) (MAX_ENTRIES : Nat) (answers : Nat → Fence → nsecs_t)
    (heap : Heap) (q : List Nat) (e : Nat)
    (hmax : 1 ≤ MAX_ENTRIES) (hlen : q.length ≤ MAX_ENTRIES) :
    ∃ c, push env MAX_ENTRIES answers heap ⟨q⟩ e = some c ∧
      c.self.mQueue = (if q.length < MAX_ENTRIES then q ++ [e] else q.tail ++ [e]) := by
  obtain ⟨c, hc, hq⟩ := push_queue env MAX_ENTRIES hmax answers heap ⟨q⟩ e
  refine ⟨c, hc, ?_⟩
  rw [hq]
  split_ifs with hlt
  · have : q.length - (MAX_ENTRIES - 1) = 0 := by omega
    simp [this]
  · have : q.length - (MAX_ENTRIES - 1) = 1 := by omega
    simp [this]

/-- Witness of C18: capacity 2, queue `[0, 7]`, pushing 2 evicts entry 0. -/
theorem C18_push_fifo_witness :
    ∃ c, push Env.reference 2 answersSignalled Heap.sample ⟨[0, 7]⟩ 2 = some c ∧
      c.self.mQueue = [7, 2] :=
  have ⟨c, hc, hq⟩ :=
    C18_push_fifo Env.reference 2 answersSignalled Heap.sample [0, 7] 2 (by decide) (by decide)
  ⟨c, hc, hq⟩

end FenceTimeline

/-! ## Eviction, failure atomicity and two defects -/

namespace FenceTimeline

/-- Below capacity the loop of `push` does nothing. -/
theorem pushLoop_below (env : Env) (MAX_ENTRIES : Nat) (q : List Nat)
    (answers : Nat → Fence → nsecs_t) (heap : Heap) (hlen : q.length < MAX_ENTRIES) :
    pushLoop env MAX_ENTRIES q answers heap = some ⟨heap, ⟨q⟩, [], []⟩ := by
  cases q with
  | nil =>
    simp only [pushLoop]
    rw [if_neg (by simp only [List.length_nil] at hlen; omega)]
  | cons front rest =>
    simp only [pushLoop]
    rw [if_neg (by omega)]

/-- C21 (eviction makes a final resolution attempt). Let the queue `front :: rest`
be full, that is, hold exactly `MAX_ENTRIES` entries. If the front entry is owned, `push(e)`
invokes `getSignalTime` on that entry and on no other, the FenceTime object is
left as that call leaves it, and the queue becomes `rest ++ [e]`; in particular,
if the object is pending and its Fence answers a non-PENDING value `T` at that
moment, its cached signal time is `T` and its Fence reference is null after
`push`. If the front entry has lapsed, it is removed with no call and no poll,
and no FenceTime object changes. -/
theorem C21_eviction (env : Env) (MAX_ENTRIES : Nat) (answers : Nat → Fence → nsecs_t)
    (heap : Heap) (front : Nat) (rest : List Nat) (e : Nat)
    (hfull : (front :: rest).length = MAX_ENTRIES) :
    (∀ ft, heap front = some ft →
      ∃ c, push env MAX_ENTRIES answers heap ⟨front :: rest⟩ e = some c ∧
        c.self.mQueue = rest ++ [e] ∧
        c.called = [front] ∧
        c.polled = (FenceTime.getSignalTime env (answers 0) ft).polled ∧
        c.heap =
          Function.update heap front (some (FenceTime.getSignalTime env (answers 0) ft).self) ∧
        (∀ f T, ft.mSignalTime = env.SIGNAL_TIME_PENDING → ft.mFence = some f →
          answers 0 f = T → T ≠ env.SIGNAL_TIME_PENDING →
          c.polled = [f] ∧ c.heap front = some ⟨ft.mState, none, T⟩)) ∧
    (heap front = none →
      ∃ c, push env MAX_ENTRIES answers heap ⟨front :: rest⟩ e = some c ∧
        c.self.mQueue = rest ++ [e] ∧ c.called = [] ∧ c.polled = [] ∧ c.heap = heap) := by
  have hrest : rest.length < MAX_ENTRIES := by
    simp only [List.length_cons] at hfull; omega
  have hge : MAX_ENTRIES ≤ (front :: rest).length := by omega
  refine ⟨?_, ?_⟩
  · intro ft hft
    refine ⟨⟨Function.update heap front (some (FenceTime.getSignalTime env (answers 0) ft).self),
      ⟨rest ++ [e]⟩, [front], (FenceTime.getSignalTime env (answers 0) ft).polled ++ []⟩,
      ?_, rfl, rfl, by simp, rfl, ?_⟩
    · simp only [push, pushLoop, if_pos hge, hft,
        pushLoop_below env MAX_ENTRIES rest _ _ hrest]
    · intro f T hpending hfence hans hT
      subst hans
      simp [FenceTime.getSignalTime, hpending, hfence, hT]
  · intro hnone
    refine ⟨⟨heap, ⟨rest ++ [e]⟩, [], []⟩, ?_, rfl, rfl, rfl, rfl⟩
    simp only [push, pushLoop, if_pos hge, hnone,
      pushLoop_below env MAX_ENTRIES rest _ _ hrest]

/-- Witness of C21: capacity 2, queue `[0, 7]` whose front is the pending FenceTime
holding Fence 3; the Fence answers 1000 when `push` evicts it. -/
theorem C21_eviction_witness :
    ∃ c, push Env.reference 2 answersSignalled Heap.sample ⟨[0, 7]⟩ 2 = some c ∧
      c.self.mQueue = [7, 2] ∧ c.called = [0] ∧ c.polled = [⟨3⟩] ∧
      c.heap 0 = some ⟨FenceTime.State.VALID, none, 1000⟩ :=
  have ⟨c, hc, hq, hcalled, _, _, hres⟩ :=
    (C21_eviction Env.reference 2 answersSignalled Heap.sample 0 [7] 2 rfl).1
      (FenceTime.ofFence Env.reference (some ⟨3⟩)) rfl
  ⟨c, hc, hq, hcalled, (hres ⟨3⟩ 1000 rfl rfl rfl (by decide)).1,
    (hres ⟨3⟩ 1000 rfl rfl rfl (by decide)).2⟩

end FenceTimeline

namespace FenceTime

/-- C24, evaluated at the failing input: a FenceTime built from the valid Fence 3
receives the trusted snapshot `Snapshot(SIGNAL_TIME_PENDING)`. Its Fence
reference is cleared while the cached time stays PENDING, so `getSnapshot`
returns a snapshot of kind FENCE whose fence is null, and `getFlattenedSize`,
`getFdCount` and `flatten` on it dereference the null reference. -/
theorem C24_null_fence_snapshot :
    (applyTrustedSnapshot Env.reference (ofFence Env.reference (some ⟨3⟩))
      (Snapshot.ofSignalTime Env.reference Env.reference.SIGNAL_TIME_PENDING)).1 =
        ⟨State.VALID, none, Env.reference.SIGNAL_TIME_PENDING⟩ ∧
    (getSnapshot Env.reference
      (applyTrustedSnapshot Env.reference (ofFence Env.reference (some ⟨3⟩))
        (Snapshot.ofSignalTime Env.reference Env.reference.SIGNAL_TIME_PENDING)).1).state =
        Snapshot.State.FENCE ∧
    (getSnapshot Env.reference
      (applyTrustedSnapshot Env.reference (ofFence Env.reference (some ⟨3⟩))
        (Snapshot.ofSignalTime Env.reference Env.reference.SIGNAL_TIME_PENDING)).1).fence =
        none ∧
    Snapshot.getFlattenedSize Wire.reference
      (getSnapshot Env.reference
        (applyTrustedSnapshot Env.reference (ofFence Env.reference (some ⟨3⟩))
          (Snapshot.ofSignalTime Env.reference Env.reference.SIGNAL_TIME_PENDING)).1) = none ∧
    Snapshot.getFdCount Wire.reference
      (getSnapshot Env.reference
        (applyTrustedSnapshot Env.reference (ofFence Env.reference (some ⟨3⟩))
          (Snapshot.ofSignalTime Env.reference Env.reference.SIGNAL_TIME_PENDING)).1) = none ∧
    Snapshot.flatten Wire.reference
      (getSnapshot Env.reference
        (applyTrustedSnapshot Env.reference (ofFence Env.reference (some ⟨3⟩))
          (Snapshot.ofSignalTime Env.reference Env.reference.SIGNAL_TIME_PENDING)).1)
      ⟨[], 64, [], 4⟩ = none := by
  decide

/-- C25, evaluated at the failing input: `unflatten` of the four bytes `7 0 0 0`
leaves a Snapshot with the unrecognised tag 7 and returns NO_ERROR. For that
Snapshot `getFlattenedSize` returns 0, so `flatten` into a destination of size 0
passes the size test, stores the four tag bytes all the same, lets `size` wrap
around and returns NO_ERROR: the number of bytes written is not at most the size
given. -/
theorem C25_write_past_destination :
    Snapshot.unflatten Wire.reference Env.reference.snapshotDefault ⟨[7, 0, 0, 0], 4, [], 0⟩ =
      (NO_ERROR, { Env.reference.snapshotDefault with state := Snapshot.State.unrecognised 7 },
        ⟨[], 0, [], 0⟩) ∧
    Snapshot.getFlattenedSize Wire.reference
      { Env.reference.snapshotDefault with state := Snapshot.State.unrecognised 7 } = some 0 ∧
    Snapshot.flatten Wire.reference
      { Env.reference.snapshotDefault with state := Snapshot.State.unrecognised 7 }
      ⟨[], 0, [], 0⟩ =
        some (NO_ERROR, ⟨[7, 0, 0, 0], 18446744073709551612, [], 0⟩) ∧
    (Snapshot.flatten Wire.reference
      { Env.reference.snapshotDefault with state := Snapshot.State.unrecognised 7 }
      ⟨[], 0, [], 0⟩).map (fun r => decide (r.2.buffer.length ≤ 0)) = some false := by
  decide

/-- C26 (failure atomicity of `unflatten`). Let `size` be a `size_t` value. If `size`
is below the tag width, `unflatten` returns NO_MEMORY with the Snapshot and the
cursor (buffer, size, fds, count) unchanged. If `size` is at least the tag
width, the tag decodes to SIGNAL_TIME and fewer than 8 bytes remain after it,
`unflatten` returns NO_MEMORY with the Snapshot's kind set to SIGNAL_TIME,
`signalTime` and `fence` at their previous values, and `buffer` advanced and
`size` reduced by the tag width. -/
theorem C26_unflatten_failure (w : Wire) (self : Snapshot) (cur : UnflattenCursor)
    (hcur : cur.size < 2 ^ w.sizeBits) :
    (cur.size < w.tagWidth → Snapshot.unflatten w self cur = (NO_MEMORY, self, cur)) ∧
    (w.tagWidth ≤ cur.size →
      Snapshot.State.ofRaw (decodeLE (cur.buffer.take w.tagWidth)) = Snapshot.State.SIGNAL_TIME →
      cur.size - w.tagWidth < 8 →
      Snapshot.unflatten w self cur =
        (NO_MEMORY,
          ⟨Snapshot.State.SIGNAL_TIME, self.fence, self.signalTime⟩,
          ⟨cur.buffer.drop w.tagWidth, cur.size - w.tagWidth, cur.fds, cur.count⟩)) := by
  refine ⟨?_, ?_⟩
  · intro hlt
    simp only [Snapshot.unflatten, if_pos hlt]
  · intro hle htag h8
    rw [Snapshot.unflatten_of_le w self cur hcur hle, htag]
    simp only [if_pos h8]

/-- Witness of C26: three bytes are too few for the tag and nothing changes; a
SIGNAL_TIME tag followed by seven bytes fails after the tag has been consumed
and the kind of the Snapshot (which carried Fence 9) has been overwritten. -/
theorem C26_unflatten_failure_witness :
    Snapshot.unflatten Wire.reference (Snapshot.ofFence Env.reference (some ⟨9⟩))
        ⟨[2, 0, 0], 3, [], 0⟩ =
      (NO_MEMORY, Snapshot.ofFence Env.reference (some ⟨9⟩), ⟨[2, 0, 0], 3, [], 0⟩) ∧
    Snapshot.unflatten Wire.reference (Snapshot.ofFence Env.reference (some ⟨9⟩))
        ⟨[2, 0, 0, 0, 1, 1, 1, 1, 1, 1, 1], 11, [], 0⟩ =
      (NO_MEMORY, ⟨Snapshot.State.SIGNAL_TIME, some ⟨9⟩, -1⟩,
        ⟨[1, 1, 1, 1, 1, 1, 1], 7, [], 0⟩) :=
  ⟨(C26_unflatten_failure Wire.reference (Snapshot.ofFence Env.reference (some ⟨9⟩))
      ⟨[2, 0, 0], 3, [], 0⟩ (by decide)).1 (by decide),
    (C26_unflatten_failure Wire.reference (Snapshot.ofFence Env.reference (some ⟨9⟩))
      ⟨[2, 0, 0, 0, 1, 1, 1, 1, 1, 1, 1], 11, [], 0⟩ (by decide)).2 (by decide) rfl
      (by decide)⟩

end FenceTime

/-! ## Locks held at a poll -/

namespace FenceTime

/-- Inside `getSignalTime` the Fence is polled with exactly the mutexes held that
the caller held on entry. -/
theorem heldAtPolls_getSignalTimeEvents (env : Env) (fenceAnswer : Fence → nsecs_t)
    (address : Nat) (self : FenceTime) (held : List Mutex) (tail : List Event) :
    Event.heldAtPolls held (getSignalTimeEvents env fenceAnswer address self ++ tail) =
      (getSignalTime env fenceAnswer self).polled.map (fun f => (f, held)) ++
        Event.heldAtPolls held tail := by
  by_cases hres : self.mSignalTime = env.SIGNAL_TIME_PENDING
  · cases hf : self.mFence with
    | none =>
      simp [getSignalTimeEvents, getSignalTime, hres, hf, Event.heldAtPolls]
    | some fence =>
      by_cases hans : fenceAnswer fence = env.SIGNAL_TIME_PENDING
      · simp [getSignalTimeEvents, getSignalTime, hres, hf, hans, Event.heldAtPolls]
      · simp [getSignalTimeEvents, getSignalTime, hres, hf, hans, Event.heldAtPolls]
  · simp [getSignalTimeEvents, getSignalTime, hres]

end FenceTime

namespace FenceTimeline

theorem heldAtPolls_updateLoopEvents (env : Env) (q : List Nat)
    (answers : Nat → Fence → nsecs_t) (heap : Heap) :
    Event.heldAtPolls [] (updateLoopEvents env q answers heap) =
      (updateLoop env q answers heap).polled.map (fun f => (f, [Mutex.timeline])) := by
  induction q generalizing answers heap with
  | nil => rfl
  | cons front rest ih =>
    cases h : heap front with
    | none =>
      rw [updateLoop_cons_none env front rest answers heap h]
      simp only [updateLoopEvents, h, List.cons_append, List.nil_append, Event.heldAtPolls,
        List.erase_cons_head]
      exact ih answers heap
    | some ft =>
      by_cases hret : (FenceTime.getSignalTime env (answers 0) ft).ret = env.SIGNAL_TIME_PENDING
      · rw [updateLoop_cons_pending env front rest answers heap ft h hret]
        simp only [updateLoopEvents, h, hret, ne_eq, not_true_eq_false, if_false,
          List.cons_append, List.nil_append, List.append_nil, Event.heldAtPolls]
        rw [FenceTime.heldAtPolls_getSignalTimeEvents]
        simp [Event.heldAtPolls]
      · rw [updateLoop_cons_resolved env front rest answers heap ft h hret]
        simp only [updateLoopEvents, h, hret, ne_eq, not_false_eq_true, if_true,
          List.cons_append, List.nil_append, List.append_assoc, Event.heldAtPolls]
        rw [FenceTime.heldAtPolls_getSignalTimeEvents]
        simp only [List.cons_append, List.nil_append, Event.heldAtPolls, List.erase_cons_head,
          List.map_append]
        rw [ih]

theorem heldAtPolls_pushLoopEvents (env : Env) (MAX_ENTRIES : Nat) (hmax : 1 ≤ MAX_ENTRIES)
    (q : List Nat) (answers : Nat → Fence → nsecs_t) (heap : Heap) :
    ∃ c events, pushLoop env MAX_ENTRIES q answers heap = some c ∧
      pushLoopEvents env MAX_ENTRIES q answers heap = some events ∧
      ∀ held tail, Event.heldAtPolls held (events ++ tail) =
        c.polled.map (fun f => (f, held)) ++ Event.heldAtPolls held tail := by
  induction q generalizing answers heap with
  | nil =>
    refine ⟨⟨heap, ⟨[]⟩, [], []⟩, [], ?_, ?_, by simp⟩
    · simp only [pushLoop]
      rw [if_neg (by omega)]
    · simp only [pushLoopEvents]
      rw [if_neg (by omega)]
  | cons front rest ih =>
    by_cases hfull : MAX_ENTRIES ≤ (front :: rest).length
    · cases h : heap front with
      | none =>
        obtain ⟨c, events, hc, he, hheld⟩ := ih answers heap
        refine ⟨c, events, ?_, ?_, hheld⟩
        · simp only [pushLoop, if_pos hfull, h]
          exact hc
        · simp only [pushLoopEvents, if_pos hfull, h]
          exact he
      | some ft =>
        obtain ⟨c, events, hc, he, hheld⟩ := ih (fun n => answers (n + 1))
          (Function.update heap front (some (FenceTime.getSignalTime env (answers 0) ft).self))
        refine ⟨{ c with
          called := front :: c.called
          polled := (FenceTime.getSignalTime env (answers 0) ft).polled ++ c.polled },
          FenceTime.getSignalTimeEvents env (answers 0) front ft ++ events, ?_, ?_, ?_⟩
        · simp only [pushLoop, if_pos hfull, h, hc]
        · simp only [pushLoopEvents, if_pos hfull, h, he]
        · intro held tail
          rw [List.append_assoc, FenceTime.heldAtPolls_getSignalTimeEvents, hheld]
          simp
    · refine ⟨⟨heap, ⟨front :: rest⟩, [], []⟩, [], ?_, ?_, by simp⟩
      · simp only [pushLoop, if_neg hfull]
      · simp only [pushLoopEvents, if_neg hfull]

/-- C22, the claim as stated fails: the sweep of a queue whose front entry is the
pending FenceTime holding Fence 3 polls that Fence while the calling thread
holds the mutex of the FenceTimeline. -/
theorem C22_counterexample :
    Event.heldAtPolls []
        (updateSignalTimesEvents Env.reference answersPending Heap.sample ⟨[0]⟩) =
      [(⟨3⟩, [Mutex.timeline])] ∧
    ¬ ∀ p ∈ Event.heldAtPolls []
        (updateSignalTimesEvents Env.reference answersPending Heap.sample ⟨[0]⟩), p.2 = [] := by
  decide

/-- C22 (amended). In every execution of `FenceTime::getSignalTime` called with no
mutex held, the calling thread holds no mutex at the moment the Fence is polled:
the mutex of the FenceTime has been released before. In every execution of
`FenceTimeline::updateSignalTimes` and of `FenceTimeline::push` (capacity at
least 1), at every moment a Fence is polled the calling thread holds the mutex
of the FenceTimeline and no other; the mutex of the FenceTime is not held. The
polls are those of the calls themselves, in order. -/
theorem C22_locks_at_polls (env : Env) (fenceAnswer : Fence → nsecs_t) (address : Nat)
    (self : FenceTime) (MAX_ENTRIES : Nat) (answers : Nat → Fence → nsecs_t) (heap : Heap)
    (timeline : FenceTimeline) (e : Nat) (hmax : 1 ≤ MAX_ENTRIES) :
    Event.heldAtPolls [] (FenceTime.getSignalTimeEvents env fenceAnswer address self) =
      (FenceTime.getSignalTime env fenceAnswer self).polled.map (fun f => (f, [])) ∧
    Event.heldAtPolls [] (updateSignalTimesEvents env answers heap timeline) =
      (updateSignalTimes env answers heap timeline).polled.map
        (fun f => (f, [Mutex.timeline])) ∧
    ∃ c events, push env MAX_ENTRIES answers heap timeline e = some c ∧
      pushEvents env MAX_ENTRIES answers heap timeline = some events ∧
      Event.heldAtPolls [] events = c.polled.map (fun f => (f, [Mutex.timeline])) := by
  refine ⟨?_, heldAtPolls_updateLoopEvents env timeline.mQueue answers heap, ?_⟩
  · have h := FenceTime.heldAtPolls_getSignalTimeEvents env fenceAnswer address self [] []
    simpa [Event.heldAtPolls] using h
  · obtain ⟨c, events, hc, he, hheld⟩ :=
      heldAtPolls_pushLoopEvents env MAX_ENTRIES hmax timeline.mQueue answers heap
    refine ⟨{ c with self := ⟨c.self.mQueue ++ [e]⟩ },
      [Event.acquire Mutex.timeline] ++ events ++ [Event.release Mutex.timeline], ?_, ?_, ?_⟩
    · simp only [push, hc]
    · simp only [pushEvents, he]
    · show Event.heldAtPolls [Mutex.timeline] (events ++ [Event.release Mutex.timeline]) = _
      rw [hheld]
      simp [Event.heldAtPolls]

/-- Witness of C22: capacity 2; a direct call on the pending FenceTime holding Fence
3, a sweep of `[1, 7, 0, 2]` and a push onto the full queue `[0, 7]`, with every
Fence answering 1000. -/
theorem C22_locks_at_polls_witness :
    Event.heldAtPolls []
        (FenceTime.getSignalTimeEvents Env.reference (answersSignalled 0) 0
          FenceTime.samplePending) =
      [(⟨3⟩, [])] ∧
    Event.heldAtPolls []
        (updateSignalTimesEvents Env.reference answersSignalled Heap.sample ⟨[1, 7, 0, 2]⟩) =
      [(⟨3⟩, [Mutex.timeline]), (⟨5⟩, [Mutex.timeline])] ∧
    ∃ c events, push Env.reference 2 answersSignalled Heap.sample ⟨[0, 7]⟩ 2 = some c ∧
      pushEvents Env.reference 2 answersSignalled Heap.sample ⟨[0, 7]⟩ = some events ∧
      Event.heldAtPolls [] events = c.polled.map (fun f => (f, [Mutex.timeline])) :=
  have h := C22_locks_at_polls Env.reference (answersSignalled 0) 0 FenceTime.samplePending 2
    answersSignalled Heap.sample ⟨[0, 7]⟩ 2 (by decide)
  ⟨by decide, by decide, h.2.2⟩

end FenceTimeline

/-! ## Concurrent callers -/

theorem countP_set_balance {α : Type} (p : α → Bool) (l : List α) (i : Nat) (x y : α)
    (h : l[i]? = some y) :
    (l.set i x).countP p + (if p y then 1 else 0) = l.countP p + (if p x then 1 else 0) := by
  induction l generalizing i with
  | nil => simp at h
  | cons a rest ih =>
    cases i with
    | zero =>
      simp only [List.getElem?_cons_zero, Option.some.injEq] at h
      subst h
      simp only [List.set_cons_zero, List.countP_cons]
      omega
    | succ j =>
      simp only [List.getElem?_cons_succ] at h
      simp only [List.set_cons_succ, List.countP_cons]
      have := ih j h
      omega

namespace Racer

/-- What one step of a caller can do to the shared object: nothing, or, when the
caller holds a non-PENDING answer, clear the reference and store that answer. -/
theorem step_shared (env : Env) (fenceAnswer : Fence → nsecs_t) (shared : FenceTime)
    (t : Racer) :
    ((step env fenceAnswer shared t).2.2 = none ∧ (step env fenceAnswer shared t).2.1 = shared) ∨
    (∃ v, (step env fenceAnswer shared t).2.2 = some v ∧ v ≠ env.SIGNAL_TIME_PENDING ∧
      t = answered v ∧ (step env fenceAnswer shared t).1 = returned v ∧
      (step env fenceAnswer shared t).2.1 = { shared with mFence := none, mSignalTime := v }) := by
  cases t with
  | start =>
    left
    simp only [step]
    split_ifs <;> exact ⟨rfl, rfl⟩
  | slow =>
    left
    simp only [step]
    cases shared.mFence <;> exact ⟨rfl, rfl⟩
  | holding fence => exact Or.inl ⟨rfl, rfl⟩
  | answered v =>
    by_cases hv : v = env.SIGNAL_TIME_PENDING
    · left
      simp [step, hv]
    · right
      exact ⟨v, by simp [step, hv], hv, rfl, by simp [step, hv], by simp [step, hv]⟩
  | returned v => exact Or.inl ⟨rfl, rfl⟩

theorem step_returned (env : Env) (fenceAnswer : Fence → nsecs_t) (shared : FenceTime)
    (t : Racer) (h : t.isReturned = true) :
    (step env fenceAnswer shared t).1 = t ∧ (step env fenceAnswer shared t).2.2 = none := by
  cases t with
  | returned v => exact ⟨rfl, rfl⟩
  | start => simp [isReturned] at h
  | slow => simp [isReturned] at h
  | holding fence => simp [isReturned] at h
  | answered v => simp [isReturned] at h

/-- The value a caller holds after a step is one it held before, the cached value, or
an answer of a Fence at that moment. -/
theorem step_value (env : Env) (fenceAnswer : Fence → nsecs_t) (shared : FenceTime)
    (t : Racer) (v : nsecs_t)
    (h : (step env fenceAnswer shared t).1 = answered v ∨
      (step env fenceAnswer shared t).1 = returned v) :
    (t = answered v ∨ t = returned v) ∨ v = shared.mSignalTime ∨ ∃ f, v = fenceAnswer f := by
  cases t with
  | start =>
    simp only [step] at h
    split_ifs at h
    · rcases h with h | h
      · cases h
      · injection h with h
        exact Or.inr (Or.inl h.symm)
    · rcases h with h | h <;> cases h
  | slow =>
    simp only [step] at h
    cases hf : shared.mFence with
    | none =>
      rw [hf] at h
      rcases h with h | h
      · cases h
      · injection h with h
        exact Or.inr (Or.inl h.symm)
    | some fence =>
      rw [hf] at h
      rcases h with h | h <;> cases h
  | holding fence =>
    simp only [step] at h
    rcases h with h | h
    · injection h with h
      exact Or.inr (Or.inr ⟨fence, h.symm⟩)
    · cases h
  | answered u =>
    simp only [step] at h
    split_ifs at h
    · rcases h with h | h
      · cases h
      · injection h with h
        exact Or.inl (Or.inl (by rw [h]))
    · rcases h with h | h
      · cases h
      · injection h with h
        exact Or.inl (Or.inl (by rw [h]))
  | returned u =>
    simp only [step] at h
    rcases h with h | h
    · cases h
    · exact Or.inl (Or.inr h)

end Racer

namespace Race

/-- A property that holds at the start and is kept by every step of the schedule
holds at the end. -/
theorem run_invariant (env : Env) (P : Race → Prop) (Q : Nat × (Fence → nsecs_t) → Prop)
    (hstep : ∀ r tid fenceAnswer, Q (tid, fenceAnswer) → P r → P (step env r tid fenceAnswer))
    (schedule : List (Nat × (Fence → nsecs_t))) (hQ : ∀ s ∈ schedule, Q s) (r : Race)
    (hr : P r) : P (run env schedule r) := by
  induction schedule generalizing r with
  | nil => exact hr
  | cons s rest ih =>
    obtain ⟨tid, fenceAnswer⟩ := s
    simp only [run]
    exact ih (fun s hs => hQ s (List.mem_cons_of_mem _ hs)) _
      (hstep r tid fenceAnswer (hQ _ (List.mem_cons_self _ _)) hr)

/-- Every store is made by a caller that returns with it, and no caller stores
twice. -/
theorem step_stores_le (env : Env) (r : Race) (tid : Nat) (fenceAnswer : Fence → nsecs_t)
    (h : r.stores.length ≤ r.threads.countP Racer.isReturned) :
    (step env r tid fenceAnswer).stores.length ≤
      (step env r tid fenceAnswer).threads.countP Racer.isReturned := by
  simp only [step]
  cases ht : r.threads[tid]? with
  | none => exact h
  | some t =>
    simp only []
    have hbal := countP_set_balance Racer.isReturned r.threads tid
      (Racer.step env fenceAnswer r.shared t).1 t ht
    rcases Racer.step_shared env fenceAnswer r.shared t with ⟨hnone, _⟩ | ⟨v, hsome, _, htv, hnext, _⟩
    · rw [hnone]
      simp only [Option.toList, List.append_nil]
      by_cases hret : t.isReturned = true
      · rw [(Racer.step_returned env fenceAnswer r.shared t hret).1] at hbal ⊢
        omega
      · simp only [hret, Bool.false_eq_true, if_false] at hbal
        omega
    · rw [hsome]
      rw [hnext] at hbal ⊢
      subst htv
      simp only [Racer.isReturned, Bool.false_eq_true, if_false, if_true] at hbal
      simp only [Option.toList, List.length_append, List.length_singleton]
      omega

theorem step_length (env : Env) (r : Race) (tid : Nat) (fenceAnswer : Fence → nsecs_t) :
    (step env r tid fenceAnswer).threads.length = r.threads.length := by
  simp only [step]
  cases r.threads[tid]? <;> simp

/-- Until the first store the object is as at the start; from then on its Fence
reference is null and its cached time is the value stored last, which is not
PENDING. -/
theorem step_shared_form (env : Env) (shared0 : FenceTime) (r : Race) (tid : Nat)
    (fenceAnswer : Fence → nsecs_t)
    (h : (r.stores = [] ∧ r.shared = shared0) ∨
      ∃ t, r.stores.getLast? = some t ∧ t ≠ env.SIGNAL_TIME_PENDING ∧
        r.shared = { shared0 with mFence := none, mSignalTime := t }) :
    ((step env r tid fenceAnswer).stores = [] ∧ (step env r tid fenceAnswer).shared = shared0) ∨
      ∃ t, (step env r tid fenceAnswer).stores.getLast? = some t ∧
        t ≠ env.SIGNAL_TIME_PENDING ∧
        (step env r tid fenceAnswer).shared = { shared0 with mFence := none, mSignalTime := t } := by
  simp only [step]
  cases ht : r.threads[tid]? with
  | none => exact h
  | some t =>
    simp only []
    rcases Racer.step_shared env fenceAnswer r.shared t with ⟨hnone, hsame⟩ | ⟨v, hsome, hv, _, _, hsh⟩
    · rw [hnone, hsame]
      simpa using h
    · right
      refine ⟨v, by rw [hsome]; simp, hv, ?_⟩
      rw [hsh]
      rcases h with ⟨_, h0⟩ | ⟨t0, _, _, h0⟩
      · rw [h0]
      · rw [h0]

/-- With a Fence that answers PENDING or `T` to every query, every value stored,
held or returned is PENDING or `T`. -/
theorem step_stable (env : Env) (T : nsecs_t) (r : Race) (tid : Nat)
    (fenceAnswer : Fence → nsecs_t)
    (hanswer : ∀ f, fenceAnswer f = env.SIGNAL_TIME_PENDING ∨ fenceAnswer f = T)
    (h : (∀ t ∈ r.stores, t = T) ∧
      (∀ th ∈ r.threads, ∀ v, th = Racer.answered v ∨ th = Racer.returned v →
        v = env.SIGNAL_TIME_PENDING ∨ v = T) ∧
      (r.shared.mSignalTime = env.SIGNAL_TIME_PENDING ∨ r.shared.mSignalTime = T)) :
    (∀ t ∈ (step env r tid fenceAnswer).stores, t = T) ∧
      (∀ th ∈ (step env r tid fenceAnswer).threads, ∀ v,
        th = Racer.answered v ∨ th = Racer.returned v → v = env.SIGNAL_TIME_PENDING ∨ v = T) ∧
      ((step env r tid fenceAnswer).shared.mSignalTime = env.SIGNAL_TIME_PENDING ∨
        (step env r tid fenceAnswer).shared.mSignalTime = T) := by
  obtain ⟨hstores, hthreads, hshared⟩ := h
  simp only [step]
  cases ht : r.threads[tid]? with
  | none => exact ⟨hstores, hthreads, hshared⟩
  | some t =>
    simp only []
    have htmem : t ∈ r.threads := List.getElem?_mem ht
    have hvalues : ∀ v, (Racer.step env fenceAnswer r.shared t).1 = Racer.answered v ∨
        (Racer.step env fenceAnswer r.shared t).1 = Racer.returned v →
        v = env.SIGNAL_TIME_PENDING ∨ v = T := by
      intro v hv
      rcases Racer.step_value env fenceAnswer r.shared t v hv with hold | hcached | ⟨f, hf⟩
      · exact hthreads t htmem v hold
      · rw [hcached]; exact hshared
      · rw [hf]; exact hanswer f
    have hthreads2 : ∀ th ∈ r.threads.set tid (Racer.step env fenceAnswer r.shared t).1, ∀ v,
        th = Racer.answered v ∨ th = Racer.returned v → v = env.SIGNAL_TIME_PENDING ∨ v = T := by
      intro th hmem v hv
      rcases List.mem_or_eq_of_mem_set hmem with hold | hnew
      · exact hthreads th hold v hv
      · rw [hnew] at hv
        exact hvalues v hv
    rcases Racer.step_shared env fenceAnswer r.shared t with ⟨hnone, hsame⟩ | ⟨v, hsome, hv, htv, _, hsh⟩
    · rw [hnone, hsame]
      exact ⟨by simpa using hstores, hthreads2, hshared⟩
    · have hvT : v = T := by
        rcases hthreads t htmem v (Or.inl htv) with hp | hT
        · exact absurd hp hv
        · exact hT
      rw [hsome, hsh]
      refine ⟨?_, hthreads2, Or.inr hvT⟩
      intro x hx
      simp only [Option.toList, List.mem_append, List.mem_singleton] at hx
      rcases hx with hx | hx
      · exact hstores x hx
      · rw [hx, hvT]

end Race

namespace Race

/-- A caller that runs alone through its four steps does what the sequential
`getSignalTime` does. -/
theorem solo_eq_getSignalTime (env : Env) (fenceAnswer : Fence → nsecs_t) (shared : FenceTime) :
    (run env [(0, fenceAnswer), (0, fenceAnswer), (0, fenceAnswer), (0, fenceAnswer)]
      (init shared 1)).shared = (FenceTime.getSignalTime env fenceAnswer shared).self ∧
    (run env [(0, fenceAnswer), (0, fenceAnswer), (0, fenceAnswer), (0, fenceAnswer)]
      (init shared 1)).threads =
        [Racer.returned (FenceTime.getSignalTime env fenceAnswer shared).ret] := by
  by_cases hres : shared.mSignalTime = env.SIGNAL_TIME_PENDING
  · cases hf : shared.mFence with
    | none =>
      simp [run, step, init, Racer.step, FenceTime.getSignalTime, hres, hf]
    | some fence =>
      by_cases hans : fenceAnswer fence = env.SIGNAL_TIME_PENDING
      · simp [run, step, init, Racer.step, FenceTime.getSignalTime, hres, hf, hans]
      · simp [run, step, init, Racer.step, FenceTime.getSignalTime, hres, hf, hans]
  · simp [run, step, init, Racer.step, FenceTime.getSignalTime, hres]

theorem run_append (env : Env) (first second : List (Nat × (Fence → nsecs_t))) (r : Race) :
    run env (first ++ second) r = run env second (run env first r) := by
  induction first generalizing r with
  | nil => rfl
  | cons s rest ih =>
    obtain ⟨tid, fenceAnswer⟩ := s
    simp only [List.cons_append, run]
    exact ih _

/-- The query: a caller that holds a copy of the Fence reference receives the answer
of that Fence; no member of the object is touched. -/
theorem step_holding (env : Env) (r : Race) (tid : Nat) (f : Fence)
    (fenceAnswer : Fence → nsecs_t) (h : r.threads[tid]? = some (Racer.holding f)) :
    step env r tid fenceAnswer =
      ⟨r.shared, r.threads.set tid (Racer.answered (fenceAnswer f)), r.stores⟩ := by
  simp [step, h, Racer.step]

/-- After the query: a caller with a non-PENDING answer clears the reference, stores
its answer and returns it, whatever the object holds by then; a caller with the
PENDING answer returns it and stores nothing. -/
theorem step_answered (env : Env) (r : Race) (tid : Nat) (v : nsecs_t)
    (fenceAnswer : Fence → nsecs_t) (h : r.threads[tid]? = some (Racer.answered v)) :
    step env r tid fenceAnswer =
      (if v ≠ env.SIGNAL_TIME_PENDING then
        ⟨{ r.shared with mFence := none, mSignalTime := v },
          r.threads.set tid (Racer.returned v), r.stores ++ [v]⟩
      else ⟨r.shared, r.threads.set tid (Racer.returned v), r.stores⟩) := by
  by_cases hv : v = env.SIGNAL_TIME_PENDING
  · simp [step, h, Racer.step, hv]
  · simp [step, h, Racer.step, hv]

/-- C23, the claim as stated fails: two callers race on the pending FenceTime holding
Fence 3. Both copy the Fence reference before either polls. After the first six
steps caller 0 has stored 1000 and the reference is null; caller 1, whose answer
arrives afterwards, stores its own result as well, so `mSignalTime` is stored
twice. -/
theorem C23_counterexample :
    (run Env.reference (sampleSchedule.take 6) (init FenceTime.samplePending 2)) =
      ⟨⟨FenceTime.State.VALID, none, 1000⟩, [Racer.returned 1000, Racer.holding ⟨3⟩],
        [1000]⟩ ∧
    (run Env.reference sampleSchedule (init FenceTime.samplePending 2)) =
      ⟨⟨FenceTime.State.VALID, none, 1000⟩, [Racer.returned 1000, Racer.returned 1000],
        [1000, 1000]⟩ ∧
    ¬ (run Env.reference sampleSchedule (init FenceTime.samplePending 2)).stores.length ≤ 1 := by
  decide

/-- C23 (amended). Let any number of callers run `getSignalTime` concurrently on one
pending FenceTime, in any interleaving and with any Fence answers. Each caller
stores at most once: the stores are no more than the callers that have
returned. Until the first store the object is unchanged; after a store the
Fence reference is null and the cached time is the non-PENDING value stored
last. A caller that reaches the locked check when the reference is null returns
the cached value and makes no query. A caller that copied the reference earlier
queries the Fence without touching the object, and then, whatever the other
callers have stored in the meantime, a non-PENDING answer is stored as well (the
reference cleared, the answer written, one more store) and returned, while a
PENDING answer is returned with nothing stored; so two further steps of such a
caller whose Fence answers a non-PENDING value add exactly that store. When
every answer of the Fence is PENDING or one value `T`, every store writes `T`,
every caller returns PENDING or `T`, and the cached time is PENDING or `T`. -/
theorem C23_race (env : Env) (shared0 : FenceTime) (n : Nat)
    (schedule : List (Nat × (Fence → nsecs_t))) (T : nsecs_t)
    (hpending : shared0.mSignalTime = env.SIGNAL_TIME_PENDING) :
    (run env schedule (init shared0 n)).threads.length = n ∧
    (run env schedule (init shared0 n)).stores.length ≤
      (run env schedule (init shared0 n)).threads.countP Racer.isReturned ∧
    (((run env schedule (init shared0 n)).stores = [] ∧
        (run env schedule (init shared0 n)).shared = shared0) ∨
      ∃ t, (run env schedule (init shared0 n)).stores.getLast? = some t ∧
        t ≠ env.SIGNAL_TIME_PENDING ∧
        (run env schedule (init shared0 n)).shared =
          { shared0 with mFence := none, mSignalTime := t }) ∧
    (∀ fenceAnswer, (run env schedule (init shared0 n)).shared.mFence = none →
      Racer.step env fenceAnswer (run env schedule (init shared0 n)).shared Racer.slow =
        (Racer.returned (run env schedule (init shared0 n)).shared.mSignalTime,
          (run env schedule (init shared0 n)).shared, none)) ∧
    ((∀ s ∈ schedule, ∀ f, s.2 f = env.SIGNAL_TIME_PENDING ∨ s.2 f = T) →
      (∀ t ∈ (run env schedule (init shared0 n)).stores, t = T) ∧
      (∀ t, Racer.returned t ∈ (run env schedule (init shared0 n)).threads →
        t = env.SIGNAL_TIME_PENDING ∨ t = T) ∧
      ((run env schedule (init shared0 n)).shared.mSignalTime = env.SIGNAL_TIME_PENDING ∨
        (run env schedule (init shared0 n)).shared.mSignalTime = T)) ∧
    (∀ tid f fenceAnswer,
      (run env schedule (init shared0 n)).threads[tid]? = some (Racer.holding f) →
      step env (run env schedule (init shared0 n)) tid fenceAnswer =
        ⟨(run env schedule (init shared0 n)).shared,
          (run env schedule (init shared0 n)).threads.set tid
            (Racer.answered (fenceAnswer f)),
          (run env schedule (init shared0 n)).stores⟩) ∧
    (∀ tid v fenceAnswer,
      (run env schedule (init shared0 n)).threads[tid]? = some (Racer.answered v) →
      step env (run env schedule (init shared0 n)) tid fenceAnswer =
        (if v ≠ env.SIGNAL_TIME_PENDING then
          ⟨{ (run env schedule (init shared0 n)).shared with
              mFence := none, mSignalTime := v },
            (run env schedule (init shared0 n)).threads.set tid (Racer.returned v),
            (run env schedule (init shared0 n)).stores ++ [v]⟩
        else
          ⟨(run env schedule (init shared0 n)).shared,
            (run env schedule (init shared0 n)).threads.set tid (Racer.returned v),
            (run env schedule (init shared0 n)).stores⟩)) ∧
    (∀ tid f fenceAnswer later,
      (run env schedule (init shared0 n)).threads[tid]? = some (Racer.holding f) →
      fenceAnswer f ≠ env.SIGNAL_TIME_PENDING →
      run env (schedule ++ [(tid, fenceAnswer), (tid, later)]) (init shared0 n) =
        ⟨{ (run env schedule (init shared0 n)).shared with
            mFence := none, mSignalTime := fenceAnswer f },
          (run env schedule (init shared0 n)).threads.set tid
            (Racer.returned (fenceAnswer f)),
          (run env schedule (init shared0 n)).stores ++ [fenceAnswer f]⟩) := by
  refine ⟨?_, ?_, ?_, ?_, ?_, ?_, ?_, ?_⟩
  · exact run_invariant env (fun r => r.threads.length = n) (fun _ => True)
      (fun r tid fa _ h => (step_length env r tid fa).trans h) schedule (fun _ _ => trivial) _
      (by simp [init])
  · exact run_invariant env (fun r => r.stores.length ≤ r.threads.countP Racer.isReturned)
      (fun _ => True) (fun r tid fa _ h => step_stores_le env r tid fa h) schedule
      (fun _ _ => trivial) _ (by simp [init])
  · exact run_invariant env
      (fun r => (r.stores = [] ∧ r.shared = shared0) ∨
        ∃ t, r.stores.getLast? = some t ∧ t ≠ env.SIGNAL_TIME_PENDING ∧
          r.shared = { shared0 with mFence := none, mSignalTime := t })
      (fun _ => True) (fun r tid fa _ h => step_shared_form env shared0 r tid fa h) schedule
      (fun _ _ => trivial) _ (Or.inl ⟨rfl, rfl⟩)
  · intro fenceAnswer hnone
    simp [Racer.step, hnone]
  · intro hstable
    have h := run_invariant env
      (fun r => (∀ t ∈ r.stores, t = T) ∧
        (∀ th ∈ r.threads, ∀ v, th = Racer.answered v ∨ th = Racer.returned v →
          v = env.SIGNAL_TIME_PENDING ∨ v = T) ∧
        (r.shared.mSignalTime = env.SIGNAL_TIME_PENDING ∨ r.shared.mSignalTime = T))
      (fun s => ∀ f, s.2 f = env.SIGNAL_TIME_PENDING ∨ s.2 f = T)
      (fun r tid fa hfa h => step_stable env T r tid fa hfa h) schedule hstable
      (init shared0 n)
      ⟨by simp [init], (by
        intro th hth v hv
        simp only [init, List.mem_replicate] at hth
        rw [hth.2] at hv
        rcases hv with hv | hv <;> cases hv), Or.inl hpending⟩
    exact ⟨h.1, fun t ht => h.2.1 _ ht t (Or.inr rfl), h.2.2⟩
  · intro tid f fenceAnswer hholding
    exact step_holding env _ tid f fenceAnswer hholding
  · intro tid v fenceAnswer hanswered
    exact step_answered env _ tid v fenceAnswer hanswered
  · intro tid f fenceAnswer later hholding hanswer
    have htid : tid < (run env schedule (init shared0 n)).threads.length :=
      (List.getElem?_eq_some_iff.mp hholding).1
    rw [run_append]
    simp only [run]
    rw [step_holding env _ tid f fenceAnswer hholding,
      step_answered env _ tid (fenceAnswer f) later (List.getElem?_set_self htid),
      if_pos hanswer]
    simp only [List.set_set]

/-- Witness of C23: the two callers of the sample schedule, with a Fence that answers
1000 to every query. After six steps caller 0 has stored 1000 and caller 1 still
holds its copy of the reference; the next two steps of caller 1 store 1000 once
more. -/
theorem C23_race_witness :
    FenceTime.samplePending.mSignalTime = Env.reference.SIGNAL_TIME_PENDING ∧
    (run Env.reference sampleSchedule (init FenceTime.samplePending 2)).threads.length = 2 ∧
    (run Env.reference sampleSchedule (init FenceTime.samplePending 2)).stores.length ≤
      (run Env.reference sampleSchedule (init FenceTime.samplePending 2)).threads.countP
        Racer.isReturned ∧
    (∀ t ∈ (run Env.reference sampleSchedule (init FenceTime.samplePending 2)).stores,
      t = 1000) ∧
    (run Env.reference (sampleSchedule.take 6) (init FenceTime.samplePending 2)).threads[1]? =
      some (Racer.holding ⟨3⟩) ∧
    (run Env.reference (sampleSchedule.take 6) (init FenceTime.samplePending 2)).stores =
      [1000] ∧
    run Env.reference (sampleSchedule.take 6 ++ [(1, fun _ => 1000), (1, fun _ => 1000)])
        (init FenceTime.samplePending 2) =
      ⟨{ (run Env.reference (sampleSchedule.take 6) (init FenceTime.samplePending 2)).shared with
          mFence := none, mSignalTime := 1000 },
        (run Env.reference (sampleSchedule.take 6)
          (init FenceTime.samplePending 2)).threads.set 1 (Racer.returned 1000),
        (run Env.reference (sampleSchedule.take 6) (init FenceTime.samplePending 2)).stores ++
          [1000]⟩ :=
  have h := C23_race Env.reference FenceTime.samplePending 2 sampleSchedule 1000 rfl
  have h6 := C23_race Env.reference FenceTime.samplePending 2 (sampleSchedule.take 6) 1000 rfl
  ⟨rfl, h.1, h.2.1,
    (h.2.2.2.2.1 (by
      intro s hs f
      simp only [sampleSchedule, List.mem_cons, List.mem_singleton, List.not_mem_nil,
        or_false] at hs
      rcases hs with hs | hs | hs | hs | hs | hs | hs | hs <;> (subst hs; exact Or.inr rfl))).1,
    by decide, by decide,
    h6.2.2.2.2.2.2.2 1 ⟨3⟩ (fun _ => 1000) (fun _ => 1000) (by decide) (by decide)⟩

end Race

end android
